import Mathlib

/-!
Verification development for the convx scanning / classification / session-indexing
pipeline.  The definitions below are a shallow embedding of the TypeScript sources
under `src/src/data` (size.ts, time.ts, scanner-claude.ts, scanner-opencode.ts,
indexer.ts, types.ts).  Instants (JS `Date` values) are embedded as `Int` epoch
milliseconds; JS strings keep their UTF-16 length semantics through an explicit
code-unit counter; JS `||` fallback chains are embedded through explicit
truthiness tests; the scan-time clock (`Date.now()` / `new Date()`) is an explicit
`now : Int` parameter.  File-system discovery and JSON decoding are the I/O
boundary: the scanner embeddings receive the already-decoded records together
with the file metadata (directory name, mtime) that the scanners compute from
paths.
-/

/-- The three size modes of `SizeMode` in size.ts. -/
inductive SizeMode where
  | chars
  | bytes
  | tokens
  deriving DecidableEq

/-- String form of a size mode, as it appears in cache keys. -/
def SizeMode.toStr : SizeMode → String
  | .chars => "chars"
  | .bytes => "bytes"
  | .tokens => "tokens"

/-- The message taxonomy `MsgType` of types.ts. -/
inductive MsgType where
  | user
  | assistant
  | tool_call
  | tool_result
  deriving DecidableEq

/-- The two originating tools (`Tool` in types.ts). -/
inductive Tool where
  | claudeCode
  | opencode
  deriving DecidableEq

/-- String form of a tool, as used in the session grouping key. -/
def Tool.toStr : Tool → String
  | .claudeCode => "claude-code"
  | .opencode => "opencode"

/-- JSON values carried by the log records (payloads of tool inputs / outputs and
whole-record fallbacks).  Numbers are restricted to the integers that occur in
these logs. -/
inductive Json where
  | null
  | bool (b : Bool)
  | num (n : Int)
  | str (s : String)
  | arr (xs : List Json)
  | obj (fields : List (String × Json))

/-- JS truthiness of a JSON value: `null`, `false`, `0` and the empty string are
falsy, arrays and objects are always truthy. -/
def Json.truthy : Json → Bool
  | .null => false
  | .bool b => b
  | .num n => n != 0
  | .str s => s != ""
  | .arr _ => true
  | .obj _ => true

/-- Escape a string for JSON output (model of the quoting done by
`JSON.stringify`; the double quote and the backslash are escaped). -/
def jsonEscape (s : String) : String :=
  s.data.foldl
    (fun acc c =>
      if c = '"' then acc ++ "\\\""
      else if c = '\\' then acc ++ "\\\\"
      else acc.push c)
    ""

mutual

/-- Compact rendering of a JSON value: model of `JSON.stringify(v)`.  The
indented variant `JSON.stringify(v, null, 2)` used for tool inputs is modelled by
the same compact rendering; only whitespace differs and no claim depends on the
rendered text. -/
def Json.stringify : Json → String
  | .null => "null"
  | .bool b => if b then "true" else "false"
  | .num n => toString n
  | .str s => "\"" ++ jsonEscape s ++ "\""
  | .arr xs => "[" ++ Json.stringifyItems xs ++ "]"
  | .obj fields => "\x7b" ++ Json.stringifyFields fields ++ "\x7d"

/-- Comma-separated rendering of JSON array items. -/
def Json.stringifyItems : List Json → String
  | [] => ""
  | [x] => Json.stringify x
  | x :: xs => Json.stringify x ++ "," ++ Json.stringifyItems xs

/-- Comma-separated rendering of JSON object fields. -/
def Json.stringifyFields : List (String × Json) → String
  | [] => ""
  | [(k, v)] => "\"" ++ jsonEscape k ++ "\":" ++ Json.stringify v
  | (k, v) :: fs =>
      "\"" ++ jsonEscape k ++ "\":" ++ Json.stringify v ++ "," ++ Json.stringifyFields fs

end

/-- UTF-16 code-unit count of one character (1 for the basic plane, 2 for the
supplementary planes).  Models how JS `String.prototype.length` counts. -/
def utf16Size (c : Char) : Nat :=
  if c.val < 0x10000 then 1 else 2

/-- Model of the JS `length` of a string: its UTF-16 code-unit count. -/
def jsLength (s : String) : Nat :=
  (s.data.map utf16Size).sum

/-- Model of the UTF-8 encoded byte length of a string
(`new TextEncoder().encode(text).length`). -/
def utf8Len (s : String) : Nat :=
  (s.data.map Char.utf8Size).sum

/-- Embedding of `measureText` (size.ts lines 5-19): empty (falsy) text measures
0; otherwise chars mode is the JS length, bytes mode the UTF-8 byte length, and
tokens mode the ceiling of the JS length divided by 4. -/
def measureText (text : String) (mode : SizeMode) : Nat :=
  if text = "" then 0
  else
    match mode with
    | .chars => jsLength text
    | .bytes => utf8Len text
    | .tokens => (jsLength text + 3) / 4

/-- A timestamp value as it may appear in a record: an already-resolved instant
(a JS `Date`), a numeric epoch, or a free-form string (the three branches of
`parseTimestamp` in time.ts). -/
inductive TSVal where
  | date (t : Int)
  | num (n : Int)
  | str (s : String)

/-- JS truthiness of a timestamp value: a `Date` object is always truthy, a
number is truthy when nonzero, a string when non-empty. -/
def TSVal.truthy : TSVal → Bool
  | .date _ => true
  | .num n => n != 0
  | .str s => s != ""

/-- Days since the epoch for a civil date (Howard Hinnant's `days_from_civil`,
written with floor division). -/
def daysFromCivil (y m d : Int) : Int :=
  let y2 := if m ≤ 2 then y - 1 else y
  let era := Int.fdiv y2 400
  let yoe := y2 - era * 400
  let mp := Int.emod (m + 9) 12
  let doy := Int.fdiv (153 * mp + 2) 5 + d - 1
  let doe := yoe * 365 + Int.fdiv yoe 4 - Int.fdiv yoe 100 + doy
  era * 146097 + doe - 719468

/-- Civil date (year, month, day) for a count of days since the epoch (Howard
Hinnant's `civil_from_days`). -/
def civilFromDays (z0 : Int) : Int × Int × Int :=
  let z := z0 + 719468
  let era := Int.fdiv z 146097
  let doe := z - era * 146097
  let yoe := Int.fdiv (doe - Int.fdiv doe 1460 + Int.fdiv doe 36524 - Int.fdiv doe 146096) 365
  let y := yoe + era * 400
  let doy := doe - (365 * yoe + Int.fdiv yoe 4 - Int.fdiv yoe 100)
  let mp := Int.fdiv (5 * doy + 2) 153
  let d := doy - Int.fdiv (153 * mp + 2) 5 + 1
  let m := if mp < 10 then mp + 3 else mp - 9
  (if m ≤ 2 then y + 1 else y, m, d)

/-- Interpret a list of characters as a decimal number, when they are all
digits. -/
def digitsToNat : List Char → Option Nat
  | [] => none
  | cs =>
      if cs.all Char.isDigit then
        some (cs.foldl (fun acc c => acc * 10 + (c.toNat - 48)) 0)
      else none

/-- Parse the time-of-day tail of an ISO-8601 string (after the date part):
either empty, or `THH:MM:SS` optionally followed by `.mmm` and optionally by
`Z`.  Returns the number of milliseconds into the day. -/
def parseTimeTail : List Char → Option Int
  | [] => some 0
  | 'T' :: h1 :: h2 :: ':' :: m1 :: m2 :: ':' :: s1 :: s2 :: rest => do
      let h ← digitsToNat [h1, h2]
      let mi ← digitsToNat [m1, m2]
      let s ← digitsToNat [s1, s2]
      if h ≥ 24 ∨ mi ≥ 60 ∨ s ≥ 60 then none
      else
        let base : Int := ((h * 3600 + mi * 60 + s) * 1000 : Nat)
        match rest with
        | [] => some base
        | ['Z'] => some base
        | '.' :: f1 :: f2 :: f3 :: rest2 => do
            let f ← digitsToNat [f1, f2, f3]
            match rest2 with
            | [] => some (base + (f : Int))
            | ['Z'] => some (base + (f : Int))
            | _ => none
        | _ => none
  | _ => none

/-- Model of parsing a date string (the `parseISO` / `new Date(string)` attempts
of `parseTimestamp` in time.ts): ISO-8601 `YYYY-MM-DD` with an optional UTC
time-of-day part is accepted; everything else is treated as unparsable.  All
accepted strings are interpreted in UTC. -/
def parseDateString (s : String) : Option Int :=
  match s.data with
  | y1 :: y2 :: y3 :: y4 :: '-' :: m1 :: m2 :: '-' :: d1 :: d2 :: rest => do
      let y ← digitsToNat [y1, y2, y3, y4]
      let m ← digitsToNat [m1, m2]
      let d ← digitsToNat [d1, d2]
      if m < 1 ∨ m > 12 ∨ d < 1 ∨ d > 31 then none
      else
        let dayMs ← parseTimeTail rest
        some (daysFromCivil (y : Int) (m : Int) (d : Int) * 86400000 + dayMs)
  | _ => none

/-- Embedding of `parseTimestamp` (time.ts lines 15-44).  A `Date` input is
returned unchanged, a number becomes `new Date(n)`, a string goes through date
parsing, and everything else, including a missing value and an unparsable
string, falls back to the current time `now` (`new Date()`).  The function never
fails and never consults the file mtime. -/
def parseTimestamp (v : Option TSVal) (now : Int) : Int :=
  match v with
  | some (.date t) => t
  | some (.num n) => n
  | some (.str s) =>
      match parseDateString s with
      | some t => t
      | none => now
  | none => now

/-- Model of `new Date(v).getTime()` on a raw timestamp value: `none` stands for
the `NaN` time of an invalid `Date`. -/
def tsvGetTime : TSVal → Option Int
  | .date t => some t
  | .num n => some n
  | .str s => parseDateString s

/-- Left-pad a numeral with zeroes to the given width. -/
def padNum (width : Nat) (n : Int) : String :=
  let s := toString n.natAbs
  let s := String.mk (List.replicate (width - s.length) '0') ++ s
  if n < 0 then "-" ++ s else s

/-- Embedding of `formatDateKey` (time.ts lines 3-5): the `yyyy-MM-dd` calendar
date of an instant.  date-fns formats in the local timezone; the embedding fixes
the timezone to UTC. -/
def formatDateKey (t : Int) : String :=
  let (y, m, d) := civilFromDays (Int.fdiv t 86400000)
  padNum 4 y ++ "-" ++ padNum 2 m ++ "-" ++ padNum 2 d

/-- First truthy string of a JS `||` chain over possibly-missing strings
(`a || b || ...` where each operand is a string or undefined); `none` when every
operand is falsy. -/
def jsOrStr : List (Option String) → Option String
  | [] => none
  | some s :: rest => if s ≠ "" then some s else jsOrStr rest
  | none :: rest => jsOrStr rest

/-- Value of a JS `||` chain over possibly-missing timestamp values: the first
truthy operand, or the last operand when every operand is falsy (`a || b`
evaluates to `b` when `a` is falsy, whatever `b` is). -/
def jsOrTSV : List (Option TSVal) → Option TSVal
  | [] => none
  | [v] => v
  | some v :: rest => if v.truthy then some v else jsOrTSV rest
  | none :: rest => jsOrTSV rest

/-- First truthy instant of a JS `||` chain over possibly-missing numeric
instants (`0` is falsy). -/
def jsOrInt : List (Option Int) → Option Int
  | [] => none
  | some n :: rest => if n ≠ 0 then some n else jsOrInt rest
  | none :: rest => jsOrInt rest

/-- Scan configuration (`ScanOptions` in types.ts); `since` is an optional
inclusive lower timestamp bound, carried as an instant. -/
structure ScanOptions where
  claudeRoot : String
  opencodeRoot : String
  sizeMode : SizeMode
  since : Option Int

/-- One content part of a Claude-style `message.content` array
(text / thinking / tool_use / tool_result shapes of scanner-claude.ts and
size.ts); `type` mirrors the JSON `type` discriminator. -/
structure CPart where
  type : Option String
  text : Option String
  thinking : Option String
  input : Option Json
  content : Option Json

/-- The `message.content` field of a Claude record: either a plain string or an
array of typed parts. -/
inductive CContent where
  | str (s : String)
  | arr (parts : List CPart)

/-- JS truthiness of a content value (an array is always truthy). -/
def CContent.truthy : CContent → Bool
  | .str s => s != ""
  | .arr _ => true

/-- The embedded `message` object of a Claude record. -/
structure CMsgField where
  role : Option String
  content : Option CContent

/-- A parsed Source-A (Claude) record, with the fields the scanner and the size
measurer read. -/
structure ClaudeObj where
  type : Option String
  summary : Option String
  message : Option CMsgField
  sessionId : Option String
  requestId : Option String
  conversationId : Option String
  threadId : Option String
  timestamp : Option TSVal
  cwd : Option String

/-- JSON rendering of a timestamp value, for whole-record stringification. -/
def TSVal.toJson : TSVal → Json
  | .date t => .num t
  | .num n => .num n
  | .str s => .str s

/-- JSON rendering of a content part, for whole-record stringification. -/
def CPart.toJson (p : CPart) : Json :=
  .obj ((match p.type with | some v => [("type", Json.str v)] | none => []) ++
        (match p.text with | some v => [("text", Json.str v)] | none => []) ++
        (match p.thinking with | some v => [("thinking", Json.str v)] | none => []) ++
        (match p.input with | some v => [("input", v)] | none => []) ++
        (match p.content with | some v => [("content", v)] | none => []))

/-- JSON rendering of a content value. -/
def CContent.toJson : CContent → Json
  | .str s => .str s
  | .arr ps => .arr (ps.map CPart.toJson)

/-- JSON rendering of a whole Claude record, used by the unknown-type fallback
of `measureClaudeMessage` (`JSON.stringify(obj)`). -/
def ClaudeObj.toJson (o : ClaudeObj) : Json :=
  .obj ((match o.type with | some v => [("type", Json.str v)] | none => []) ++
        (match o.summary with | some v => [("summary", Json.str v)] | none => []) ++
        (match o.message with
         | some m =>
             [("message", Json.obj
                ((match m.role with | some v => [("role", Json.str v)] | none => []) ++
                 (match m.content with | some c => [("content", c.toJson)] | none => [])))]
         | none => []) ++
        (match o.sessionId with | some v => [("sessionId", Json.str v)] | none => []) ++
        (match o.requestId with | some v => [("requestId", Json.str v)] | none => []) ++
        (match o.conversationId with | some v => [("conversationId", Json.str v)] | none => []) ++
        (match o.threadId with | some v => [("threadId", Json.str v)] | none => []) ++
        (match o.timestamp with | some v => [("timestamp", v.toJson)] | none => []) ++
        (match o.cwd with | some v => [("cwd", Json.str v)] | none => []))

/-- Size contribution of one part in the `user` branch of
`measureClaudeMessage`: a truthy `text` of a text part, and the stringified
truthy `content` of a tool_result part. -/
def measureClaudeUserPart (p : CPart) (mode : SizeMode) : Nat :=
  (match p.type, p.text with
   | some "text", some t => if t ≠ "" then measureText t mode else 0
   | _, _ => 0) +
  (match p.type, p.content with
   | some "tool_result", some c => if c.truthy then measureText (Json.stringify c) mode else 0
   | _, _ => 0)

/-- Size contribution of one part in the `assistant` branch of
`measureClaudeMessage`: truthy `text`, truthy `thinking`, and the stringified
truthy `input` of a tool_use part. -/
def measureClaudeAssistantPart (p : CPart) (mode : SizeMode) : Nat :=
  (match p.type, p.text with
   | some "text", some t => if t ≠ "" then measureText t mode else 0
   | _, _ => 0) +
  (match p.type, p.thinking with
   | some "thinking", some t => if t ≠ "" then measureText t mode else 0
   | _, _ => 0) +
  (match p.type, p.input with
   | some "tool_use", some i => if i.truthy then measureText (Json.stringify i) mode else 0
   | _, _ => 0)

/-- Embedding of `measureClaudeMessage` (size.ts lines 21-70): shape-aware
measurement by record type, with a whole-record stringification fallback for
unknown types, floored at 1. -/
def measureClaudeMessage (obj : ClaudeObj) (mode : SizeMode) : Nat :=
  let totalSize : Nat :=
    match obj.type with
    | some "summary" =>
        match obj.summary with
        | some s => measureText s mode
        | none => 0
    | some "user" =>
        match obj.message with
        | none => 0
        | some m =>
            match m.content with
            | none => 0
            | some c =>
                if c.truthy then
                  match c with
                  | .str s => measureText s mode
                  | .arr ps => (ps.map (measureClaudeUserPart · mode)).sum
                else 0
    | some "assistant" =>
        match obj.message with
        | none => 0
        | some m =>
            match m.content with
            | some c =>
                if c.truthy then
                  match c with
                  | .str _ => 0
                  | .arr ps => (ps.map (measureClaudeAssistantPart · mode)).sum
                else 0
            | none => 0
    | _ => measureText (Json.stringify obj.toJson) mode
  max totalSize 1

/-- Embedding of `classifyClaudeMessage` (scanner-claude.ts lines 127-152):
the `type` discriminator selects user / assistant, a tool_result part inside a
user record reclassifies to tool_result, a tool_use part inside an assistant
record reclassifies to tool_call, everything else defaults to assistant. -/
def classifyClaudeMessage (obj : ClaudeObj) : MsgType :=
  match obj.type with
  | some "user" =>
      match obj.message with
      | some m =>
          match m.content with
          | some (.arr ps) =>
              if ps.any (fun p => p.type == some "tool_result") then .tool_result else .user
          | _ => .user
      | none => .user
  | some "assistant" =>
      match obj.message with
      | some m =>
          match m.content with
          | some (.arr ps) =>
              if ps.any (fun p => p.type == some "tool_use") then .tool_call else .assistant
          | _ => .assistant
      | none => .assistant
  | _ => .assistant

/-- Embedding of `deriveSessionId` (scanner-claude.ts lines 154-162): explicit
conversation / thread ids first, then an hour bucket of the record's timestamp
(or of `Date.now()` when the timestamp is falsy) joined with the project
directory name.  An unparsable timestamp string yields the `NaN` bucket. -/
def deriveSessionId (obj : ClaudeObj) (projectDirName : String) (now : Int) : String :=
  match jsOrStr [obj.conversationId, obj.threadId] with
  | some cid => cid
  | none =>
      let bucket :=
        match obj.timestamp with
        | some v =>
            if v.truthy then
              match tsvGetTime v with
              | some t => toString (Int.fdiv t 3600000)
              | none => "NaN"
            else toString (Int.fdiv now 3600000)
        | none => toString (Int.fdiv now 3600000)
      projectDirName ++ "-" ++ bucket

/-- Embedding of `getProjectDisplayName` (fs-utils.ts lines 81-93): last path
segment of a truthy cwd (or the cwd itself when the last segment is empty), else
the project directory name with dashes decoded to slashes, else a constant. -/
def getProjectDisplayName (cwd : Option String) (projectDirName : Option String) : String :=
  match cwd with
  | some c =>
      if c ≠ "" then
        let parts := c.splitOn "/"
        let lastPart := parts.getLastD ""
        if lastPart ≠ "" then lastPart else c
      else
        match projectDirName with
        | some p => if p ≠ "" then p.map (fun ch => if ch = '-' then '/' else ch) else "unknown-project"
        | none => "unknown-project"
  | none =>
      match projectDirName with
      | some p => if p ≠ "" then p.map (fun ch => if ch = '-' then '/' else ch) else "unknown-project"
      | none => "unknown-project"

/-- The `time` object of an OpenCode part or tool state, with instants stored as
epoch milliseconds (applying `new Date` to a stored instant is the identity in
this embedding). -/
structure OCTime where
  start : Option Int
  created : Option Int
  «end» : Option Int
  completed : Option Int

/-- The `state` object of an OpenCode tool part. -/
structure OCState where
  status : Option String
  input : Option Json
  output : Option String
  time : OCTime

/-- One OpenCode part file (text / reasoning / tool fragments of a message).
The `payload` field only occurs on legacy tool-call shapes and is read by the
size measurer's `part.payload || part.input || part` fallback. -/
structure OCPart where
  type : Option String
  text : Option String
  reasoning : Option String
  tool : Option String
  callID : Option String
  payload : Option Json
  input : Option Json
  time : OCTime
  state : Option OCState

/-- The `time` object of an OpenCode message file. -/
structure OCMsgTime where
  created : Option TSVal

/-- A parsed OpenCode message file. -/
structure OCMsg where
  role : Option String
  time : Option OCMsgTime
  timestamp : Option TSVal
  createdAt : Option TSVal
  created : Option TSVal

/-- Session metadata loaded from an OpenCode session-info file
(`OpenCodeSessionInfo` in scanner-opencode.ts). -/
structure OCSessionInfo where
  sessionId : String
  cwd : Option String
  workspace : Option String
  created : Option TSVal
  updated : Option TSVal

/-- An OpenCode message object after `enhanceOpenCodeMessageWithParts`: the
original message plus a synthesized `content` string (mirrored into
`message.content`) and the contributing parts. -/
structure OCEnhanced where
  msg : OCMsg
  content : String
  parts : List OCPart

/-- The retained raw payload of a Message: the source-shaped record
(`Message.raw` in types.ts). -/
inductive RawPayload where
  | claude (obj : ClaudeObj)
  | opencode (obj : OCEnhanced)

/-- The unified `Message` entity of types.ts, with instants as epoch
milliseconds. -/
structure Message where
  tool : Tool
  sessionId : String
  projectDisplay : String
  projectPath : Option String
  timestamp : Int
  fileModifiedAt : Int
  role : Option String
  msgType : MsgType
  size : Nat
  raw : RawPayload

/-- Embedding of `shouldIncludeMessage` (both scanners): with a `since` bound
set, messages strictly before the bound are dropped. -/
def shouldIncludeMessage (message : Message) (options : ScanOptions) : Bool :=
  match options.since with
  | some s => !(message.timestamp < s)
  | none => true

/-- Embedding of `parseClaudeMessage` (scanner-claude.ts lines 97-125).  The
session id is the first truthy of the explicit ids, else derived; the timestamp
is `parseTimestamp(obj.timestamp)` — the `|| fileMtime` in the source is dead
code because `parseTimestamp` always returns a (truthy) `Date`, so the fallback
for a missing timestamp is the scan-time clock, not the file mtime.  The
non-object guard of the source cannot fire on the structured embedding. -/
def parseClaudeMessage (obj : ClaudeObj) (projectDirName : String) (fileMtime : Int)
    (options : ScanOptions) (now : Int) : Option Message :=
  let sessionId :=
    match jsOrStr [obj.sessionId, obj.requestId] with
    | some s => s
    | none => deriveSessionId obj projectDirName now
  if sessionId = "" then none
  else
    some
      { tool := .claudeCode
        sessionId := sessionId
        projectDisplay := getProjectDisplayName obj.cwd (some projectDirName)
        projectPath := obj.cwd
        timestamp := parseTimestamp obj.timestamp now
        fileModifiedAt := fileMtime
        role := match obj.message with | some m => m.role | none => none
        msgType := classifyClaudeMessage obj
        size := measureClaudeMessage obj options.sizeMode
        raw := .claude obj }

/-- One discovered Source-A file at the I/O boundary: the project directory name
the scanner derives from its path, its mtime, and its parsed records (NDJSON
lines or JSON array elements; lines that fail to parse are already dropped). -/
structure CFile where
  dirName : String
  mtime : Int
  records : List ClaudeObj

/-- Embedding of the per-record loop of `scanClaudeCode` (scanner-claude.ts
lines 7-77): parse every record of every file, keeping messages that pass the
`since` filter. -/
def scanClaudeCodePure (files : List CFile) (options : ScanOptions) (now : Int) : List Message :=
  (files.map fun f =>
    f.records.filterMap fun obj =>
      match parseClaudeMessage obj f.dirName f.mtime options now with
      | some message => if shouldIncludeMessage message options then some message else none
      | none => none).flatten

/-- Embedding of `getPartTimestamp` (scanner-opencode.ts): the first truthy of
the part's own and its state's start / created / end / completed times, `none`
when every candidate is falsy (the source's final `timestamp ? ... : null`
truthiness test). -/
def getPartTimestamp (p : OCPart) : Option Int :=
  jsOrInt
    [p.time.start, p.time.created, p.time.«end», p.time.completed,
     (match p.state with | some st => st.time.start | none => none),
     (match p.state with | some st => st.time.created | none => none),
     (match p.state with | some st => st.time.«end» | none => none),
     (match p.state with | some st => st.time.completed | none => none)]

/-- JSON rendering of an OpenCode `time` object. -/
def OCTime.toJson (t : OCTime) : Json :=
  .obj ((match t.start with | some v => [("start", Json.num v)] | none => []) ++
        (match t.created with | some v => [("created", Json.num v)] | none => []) ++
        (match t.«end» with | some v => [("end", Json.num v)] | none => []) ++
        (match t.completed with | some v => [("completed", Json.num v)] | none => []))

/-- JSON rendering of an OpenCode tool state. -/
def OCState.toJson (st : OCState) : Json :=
  .obj ((match st.status with | some v => [("status", Json.str v)] | none => []) ++
        (match st.input with | some v => [("input", v)] | none => []) ++
        (match st.output with | some v => [("output", Json.str v)] | none => []) ++
        [("time", st.time.toJson)])

/-- JSON rendering of an OpenCode part, used by the size measurer's
`JSON.stringify(part.payload || part.input || part)` fallback. -/
def OCPart.toJson (p : OCPart) : Json :=
  .obj ((match p.type with | some v => [("type", Json.str v)] | none => []) ++
        (match p.text with | some v => [("text", Json.str v)] | none => []) ++
        (match p.reasoning with | some v => [("reasoning", Json.str v)] | none => []) ++
        (match p.tool with | some v => [("tool", Json.str v)] | none => []) ++
        (match p.callID with | some v => [("callID", Json.str v)] | none => []) ++
        (match p.payload with | some v => [("payload", v)] | none => []) ++
        (match p.input with | some v => [("input", v)] | none => []) ++
        [("time", p.time.toJson)] ++
        (match p.state with | some st => [("state", st.toJson)] | none => []))

/-- JSON rendering of an enhanced OpenCode message, used by the size measurer's
whole-record fallback. -/
def OCEnhanced.toJson (e : OCEnhanced) : Json :=
  .obj ((match e.msg.role with | some v => [("role", Json.str v)] | none => []) ++
        (match e.msg.time with
         | some t =>
             [("time", Json.obj
                (match t.created with | some v => [("created", v.toJson)] | none => []))]
         | none => []) ++
        (match e.msg.timestamp with | some v => [("timestamp", v.toJson)] | none => []) ++
        (match e.msg.createdAt with | some v => [("createdAt", v.toJson)] | none => []) ++
        (match e.msg.created with | some v => [("created", v.toJson)] | none => []) ++
        [("content", Json.str e.content),
         ("message", Json.obj [("content", Json.str e.content)]),
         ("parts", Json.arr (e.parts.map OCPart.toJson))])

/-- Embedding of `measureOpenCodeMessage` (size.ts lines 72-102) on the enhanced
objects the scanner feeds it: truthy part texts, stringified tool-call payloads,
the content field, a whole-record fallback when nothing was measured, floored at
1. -/
def measureOpenCodeMessage (e : OCEnhanced) (mode : SizeMode) : Nat :=
  let partsSize :=
    (e.parts.map fun p =>
      (match p.text with
       | some t => if t ≠ "" then measureText t mode else 0
       | none => 0) +
      (if p.type == some "tool-call" ∨ p.type == some "tool_use" then
        let payload :=
          match p.payload with
          | some j => if j.truthy then j else
              match p.input with
              | some i => if i.truthy then i else p.toJson
              | none => p.toJson
          | none =>
              match p.input with
              | some i => if i.truthy then i else p.toJson
              | none => p.toJson
        measureText (Json.stringify payload) mode
      else 0)).sum
  let contentSize := if e.content ≠ "" then measureText e.content mode else 0
  let total := partsSize + contentSize
  let total := if total = 0 then measureText (Json.stringify e.toJson) mode else total
  max total 1

/-- Embedding of `enhanceOpenCodeMessageWithParts` (scanner-opencode.ts): builds
the synthesized content string for a message from its parts — tool parts render
a Tool / Call ID / Input-or-Output block, text and reasoning parts are joined,
and an empty selection falls back to a role-dependent placeholder. -/
def enhanceOpenCodeMessageWithParts (obj : OCMsg) (parts : List OCPart)
    (messageType : Option String) : OCEnhanced :=
  let toolParts := parts.filter (fun p => p.type == some "tool")
  let textParts := parts.filter (fun p => p.type == some "text" &&
    match p.text with | some t => t != "" | none => false)
  let reasoningParts := parts.filter (fun p => p.type == some "reasoning" &&
    match p.reasoning with | some r => r != "" | none => false)
  let content :=
    match toolParts with
    | toolPart :: _ =>
        let toolName := match jsOrStr [toolPart.tool] with | some t => t | none => "Unknown Tool"
        let callId := match jsOrStr [toolPart.callID] with | some c => c | none => "Unknown ID"
        (match toolPart.state with
         | some st =>
             let input :=
               match st.input with
               | some i => if i.truthy then Json.stringify i else "No input"
               | none => "No input"
             let output := match jsOrStr [st.output] with | some o => o | none => "No output"
             if messageType == some "tool_call" then
               "Tool: " ++ toolName ++ "\nCall ID: " ++ callId ++ "\nInput: " ++ input
             else
               "Tool: " ++ toolName ++ "\nCall ID: " ++ callId ++ "\nOutput: " ++ output
         | none =>
             "Tool: " ++ toolName ++ "\nCall ID: " ++ callId ++ "\nStatus: pending")
    | [] =>
        let contentParts :=
          textParts.map (fun p => match p.text with | some t => t | none => "") ++
          reasoningParts.map (fun p =>
            "[REASONING]\n" ++ match p.reasoning with | some r => r | none => "")
        match contentParts with
        | [] =>
            if obj.role == some "user" then "[User message - no content found]"
            else "[Assistant response - no content found]"
        | _ => String.intercalate "\n\n" contentParts
  { msg := obj, content := content, parts := parts }

/-- Sort key of an assistant part: its extracted timestamp, defaulting to 0. -/
def partTimeKey (p : OCPart) : Int :=
  match getPartTimestamp p with
  | some t => t
  | none => 0

/-- Comparator of the assistant-part sort (`aTime - bTime` ascending). -/
def OCPart.timeLE (a b : OCPart) : Prop :=
  partTimeKey a ≤ partTimeKey b

instance : DecidableRel OCPart.timeLE :=
  fun a b => inferInstanceAs (Decidable (partTimeKey a ≤ partTimeKey b))

/-- The timestamp fallback chain of `parseOpenCodeMessage`:
`obj.time?.created || obj.timestamp || obj.createdAt || obj.created ||
sessionInfo?.created`. -/
def ocChainVal (obj : OCMsg) (sessionInfo : Option OCSessionInfo) : Option TSVal :=
  jsOrTSV
    [(match obj.time with | some t => t.created | none => none),
     obj.timestamp, obj.createdAt, obj.created,
     (match sessionInfo with | some i => i.created | none => none)]

/-- Embedding of `parseOpenCodeMessage` (scanner-opencode.ts lines 526-657,
i.e. src/unnamed/part_000).  A user message collapses to one Message timestamped
at the earliest truthy part time; an assistant message expands its
time-sorted text / tool / reasoning parts, a completed tool part synthesizing a
tool_call / tool_result pair; any other role yields nothing.  The
`|| fileMtime` after `parseTimestamp` in the source is dead code (a `Date` is
always truthy). -/
def parseOpenCodeMessage (obj : OCMsg) (sessionId : String)
    (sessionInfo : Option OCSessionInfo) (projectDirName : String) (fileMtime : Int)
    (options : ScanOptions) (now : Int) (messageParts : List OCPart) : List Message :=
  let baseTimestamp := parseTimestamp (ocChainVal obj sessionInfo) now
  let infoCwd :=
    jsOrStr
      [(match sessionInfo with | some i => i.cwd | none => none),
       (match sessionInfo with | some i => i.workspace | none => none)]
  let projectDisplay := getProjectDisplayName infoCwd (some projectDirName)
  if obj.role == some "user" then
    let userTimestamps := messageParts.filterMap (fun p => jsOrInt [p.time.start, p.time.created])
    let userTimestamp :=
      match userTimestamps with
      | [] => baseTimestamp
      | t :: ts => ts.foldl min t
    let enhancedObj := enhanceOpenCodeMessageWithParts obj messageParts none
    [{ tool := .opencode
       sessionId := sessionId
       projectDisplay := projectDisplay
       projectPath := infoCwd
       timestamp := userTimestamp
       fileModifiedAt := fileMtime
       role := obj.role
       msgType := .user
       size := measureOpenCodeMessage enhancedObj options.sizeMode
       raw := .opencode enhancedObj }]
  else if obj.role == some "assistant" then
    let sortedParts :=
      List.insertionSort OCPart.timeLE
        (messageParts.filter fun p =>
          p.type == some "text" || p.type == some "tool" || p.type == some "reasoning")
    (sortedParts.map fun part =>
      if part.type == some "text" ∨ part.type == some "reasoning" then
        let partTimestamp :=
          match getPartTimestamp part with
          | some t => t
          | none => fileMtime
        let enhancedObj := enhanceOpenCodeMessageWithParts obj [part] none
        [{ tool := .opencode
           sessionId := sessionId
           projectDisplay := projectDisplay
           projectPath := infoCwd
           timestamp := partTimestamp
           fileModifiedAt := fileMtime
           role := obj.role
           msgType := .assistant
           size := measureOpenCodeMessage enhancedObj options.sizeMode
           raw := .opencode enhancedObj }]
      else if part.type == some "tool" then
        match part.state with
        | some st =>
            if st.status == some "completed" then
              let startTime :=
                match jsOrInt [st.time.start] with
                | some t => t
                | none =>
                    match getPartTimestamp part with
                    | some t => t
                    | none => fileMtime
              let endTime :=
                match jsOrInt [st.time.«end»] with
                | some t => t
                | none => startTime + 1
              let callEnhancedObj := enhanceOpenCodeMessageWithParts obj [part] (some "tool_call")
              let resultEnhancedObj :=
                enhanceOpenCodeMessageWithParts obj [part] (some "tool_result")
              [{ tool := .opencode
                 sessionId := sessionId
                 projectDisplay := projectDisplay
                 projectPath := infoCwd
                 timestamp := startTime
                 fileModifiedAt := fileMtime
                 role := obj.role
                 msgType := .tool_call
                 size := measureOpenCodeMessage callEnhancedObj options.sizeMode
                 raw := .opencode callEnhancedObj },
               { tool := .opencode
                 sessionId := sessionId
                 projectDisplay := projectDisplay
                 projectPath := infoCwd
                 timestamp := endTime
                 fileModifiedAt := fileMtime
                 role := obj.role
                 msgType := .tool_result
                 size := measureOpenCodeMessage resultEnhancedObj options.sizeMode
                 raw := .opencode resultEnhancedObj }]
            else []
        | none => []
      else []).flatten
  else []

/-- One OpenCode message file at the I/O boundary: the session id recovered from
its path, the parsed message, the session info, the project directory name from
the path, the message file's mtime, the mtimes of its part files, and its parsed
parts (grouped by `messageID` upstream). -/
structure OCUnit where
  sessionId : String
  obj : OCMsg
  info : Option OCSessionInfo
  dirName : String
  msgMtime : Int
  partMtimes : List Int
  parts : List OCPart

/-- The latest modification instant across a message file and its part files
(the `allTimes.reduce` of `scanOpenCode`, seeded with the message file's
mtime). -/
def latestModTime (u : OCUnit) : Int :=
  (u.msgMtime :: u.partMtimes).foldl (fun latest c => if c > latest then c else latest) u.msgMtime

/-- Embedding of the per-message loop of `scanOpenCode` (scanner-opencode.ts
lines 391-507): expand every message file, keeping messages that pass the
`since` filter. -/
def scanOpenCodePure (units : List OCUnit) (options : ScanOptions) (now : Int) : List Message :=
  (units.map fun u =>
    (parseOpenCodeMessage u.obj u.sessionId u.info u.dirName (latestModTime u) options now
        u.parts).filter
      (shouldIncludeMessage · options)).flatten

/-- The `Session` aggregate of types.ts, with instants as epoch milliseconds. -/
structure Session where
  tool : Tool
  sessionId : String
  projectDisplay : String
  projectPath : Option String
  startedAt : Int
  endedAt : Int
  fileLastModified : Int
  messages : List Message

/-- Append a value to the bucket of a key in an insertion-ordered association
list, creating the bucket at the end when the key is new (models
`map.get(k) || []` / `push` / `map.set(k, ...)` on a JS `Map`). -/
def upsertAList {β : Type} : List (String × List β) → String → β → List (String × List β)
  | [], k, v => [(k, [v])]
  | (k2, vs) :: rest, k, v =>
      if k2 = k then (k2, vs ++ [v]) :: rest else (k2, vs) :: upsertAList rest k v

/-- Group a list into an insertion-ordered association list by a key
function. -/
def groupByKey {β : Type} (key : β → String) (l : List β) : List (String × List β) :=
  l.foldl (fun m v => upsertAList m (key v) v) []

/-- The session grouping key of `buildSessions`. -/
def messageKey (m : Message) : String :=
  m.tool.toStr ++ ":" ++ m.sessionId

/-- Ascending-timestamp comparator of the message sort in `buildSessions`. -/
def Message.tsLE (a b : Message) : Prop :=
  a.timestamp ≤ b.timestamp

instance : DecidableRel Message.tsLE :=
  fun a b => inferInstanceAs (Decidable (a.timestamp ≤ b.timestamp))

/-- A placeholder message, only used as the default of `headD` / `getLastD`
projections in closed statements. -/
def blankMessage : Message :=
  { tool := .claudeCode, sessionId := "", projectDisplay := "", projectPath := none,
    timestamp := 0, fileModifiedAt := 0, role := none, msgType := .assistant, size := 1,
    raw := .claude
      { type := none, summary := none, message := none, sessionId := none, requestId := none,
        conversationId := none, threadId := none, timestamp := none, cwd := none } }

/-- Build one Session from a non-empty message group: sort ascending by
timestamp, take start / end from the sorted ends, and fold the maximal
`fileModifiedAt` seeded with the first message's value (the `reduce` of
`buildSessions`). -/
def mkSession (group : List Message) (m0 : Message) : Session :=
  let sorted := List.insertionSort Message.tsLE group
  let first := sorted.headD m0
  let last := sorted.getLastD m0
  let fileLastModified :=
    sorted.foldl (fun latest m => if m.fileModifiedAt > latest then m.fileModifiedAt else latest)
      first.fileModifiedAt
  { tool := first.tool
    sessionId := first.sessionId
    projectDisplay := first.projectDisplay
    projectPath := first.projectPath
    startedAt := first.timestamp
    endedAt := last.timestamp
    fileLastModified := fileLastModified
    messages := sorted }

/-- Embedding of `buildSessions` (indexer.ts lines 65-107): group messages by
`tool:sessionId` in insertion order, skip empty groups (which never occur), and
aggregate each group into a Session. -/
def buildSessions (messages : List Message) : List Session :=
  (groupByKey messageKey messages).filterMap fun kv =>
    match kv.2 with
    | [] => none
    | m0 :: rest => some (mkSession (m0 :: rest) m0)

/-- Ascending-`startedAt` comparator of the per-date session sort. -/
def Session.startLE (a b : Session) : Prop :=
  a.startedAt ≤ b.startedAt

instance : DecidableRel Session.startLE :=
  fun a b => inferInstanceAs (Decidable (a.startedAt ≤ b.startedAt))

/-- Embedding of `groupSessionsByDate` (time.ts lines 46-63): bucket sessions by
the calendar date of their own `startedAt`, then sort every bucket ascending by
`startedAt`. -/
def groupSessionsByDate (sessions : List Session) : List (String × List Session) :=
  (groupByKey (fun s => formatDateKey s.startedAt) sessions).map fun kv =>
    (kv.1, List.insertionSort Session.startLE kv.2)

/-- The `Index` of types.ts: the insertion-ordered date-keyed map of session
buckets. -/
def IndexT : Type :=
  List (String × List Session)

/-- Embedding of `generateCacheKey` (indexer.ts lines 109-117): the options
tuple joined with bars; a missing `since` and an epoch-0 `since` both collapse
to the `no-since` sentinel because `getTime()` is 0 and falsy there. -/
def generateCacheKey (options : ScanOptions) : String :=
  let sincePart :=
    match options.since with
    | some t => if t ≠ 0 then toString t else "no-since"
    | none => "no-since"
  options.claudeRoot ++ "|" ++ options.opencodeRoot ++ "|" ++ options.sizeMode.toStr ++ "|" ++
    sincePart

/-- UTF-16 code units of one character (surrogate pair for the supplementary
planes), as enumerated by `charCodeAt`. -/
def utf16Units (c : Char) : List Nat :=
  if c.val < 0x10000 then [c.toNat]
  else
    [0xD800 + (c.toNat - 0x10000) / 0x400, 0xDC00 + (c.toNat - 0x10000) % 0x400]

/-- Wrap an integer into the signed 32-bit range (the effect of `hash & hash` on
a JS number holding an integer). -/
def toInt32 (n : Int) : Int :=
  Int.emod (n + 2147483648) 4294967296 - 2147483648

/-- The `((hash << 5) - hash) + char` string hash over UTF-16 code units, with
32-bit wrapping. -/
def hashString (s : String) : Int :=
  ((s.data.map utf16Units).flatten).foldl (fun h c => toInt32 (31 * h + (c : Int))) 0

/-- Digits of a natural number in base 36 (the `toString(36)` digits). -/
def base36Digits : Nat → List Char
  | 0 => []
  | n + 1 =>
      let m := n + 1
      let d := m % 36
      let c := if d < 10 then Char.ofNat (48 + d) else Char.ofNat (87 + d)
      base36Digits (m / 36) ++ [c]

/-- Model of JS `Number.prototype.toString(36)` for integers. -/
def toBase36 (n : Int) : String :=
  if n = 0 then "0"
  else if n < 0 then "-" ++ String.mk (base36Digits n.natAbs)
  else String.mk (base36Digits n.natAbs)

/-- Embedding of `generateIndexHash` (indexer.ts lines 119-133): the message
count joined with a 32-bit string hash over the first 100 messages'
tool / session / timestamp / size tuples. -/
def generateIndexHash (messages : List Message) : String :=
  let sampleData :=
    String.intercalate "|"
      ((messages.take 100).map fun m =>
        m.tool.toStr ++ ":" ++ m.sessionId ++ ":" ++ toString m.timestamp ++ ":" ++
          toString m.size)
  toString messages.length ++ "-" ++ toBase36 (hashString sampleData)

/-- A cache entry (`CacheEntry` in indexer.ts): fingerprint, index, and the
instant the entry was stored. -/
structure CacheEntry where
  hash : String
  index : IndexT
  timestamp : Int

/-- The process-wide cache: an insertion-ordered map from cache key to entry. -/
def Cache : Type :=
  List (String × CacheEntry)

/-- Lookup in the cache map. -/
def cacheGet (cache : Cache) (key : String) : Option CacheEntry :=
  match cache.find? (fun kv => kv.1 == key) with
  | some kv => some kv.2
  | none => none

/-- `map.set` on the cache: replace in place, or append a new key. -/
def cacheSet : Cache → String → CacheEntry → Cache
  | [], key, e => [(key, e)]
  | (k, e0) :: rest, key, e =>
      if k = key then (k, e) :: rest else (k, e0) :: cacheSet rest key e

/-- The cache TTL of indexer.ts: 5 minutes in milliseconds. -/
def CACHE_TTL : Int := 5 * 60 * 1000

/-- Embedding of `clearCache` (indexer.ts lines 135-138). -/
def clearCache : Cache := []

/-- The file trees both scanners see, at the I/O boundary. -/
structure ScanTree where
  claudeFiles : List CFile
  opencodeUnits : List OCUnit

/-- The merged message list of one fresh build (the `Promise.all` merge of
`buildIndex`; a scanner-level failure would contribute an empty list and is not
modelled separately). -/
def scanAll (tree : ScanTree) (options : ScanOptions) (now : Int) : List Message :=
  scanClaudeCodePure tree.claudeFiles options now ++
    scanOpenCodePure tree.opencodeUnits options now

/-- The Index computed by a fresh build: sessions from the merged messages,
bucketed by date. -/
def indexPure (tree : ScanTree) (options : ScanOptions) (now : Int) : IndexT :=
  groupSessionsByDate (buildSessions (scanAll tree options now))

/-- Embedding of `buildIndex` (indexer.ts lines 15-63) as a state transformer on
the cache.  `tEntry` is the clock at entry (the TTL check), `tStore` the clock
when the freshly built entry is stored.  The returned Bool records whether the
call actually scanned (false = served from cache). -/
def buildIndexM (options : ScanOptions) (tree : ScanTree) (cache : Cache)
    (tEntry tStore : Int) : IndexT × Cache × Bool :=
  let cacheKey := generateCacheKey options
  match cacheGet cache cacheKey with
  | some cached =>
      if tEntry - cached.timestamp < CACHE_TTL then (cached.index, cache, false)
      else
        let allMessages := scanAll tree options tEntry
        let index := groupSessionsByDate (buildSessions allMessages)
        let hash := generateIndexHash allMessages
        (index, cacheSet cache cacheKey ⟨hash, index, tStore⟩, true)
  | none =>
      let allMessages := scanAll tree options tEntry
      let index := groupSessionsByDate (buildSessions allMessages)
      let hash := generateIndexHash allMessages
      (index, cacheSet cache cacheKey ⟨hash, index, tStore⟩, true)

instance : IsTotal Message Message.tsLE :=
  ⟨fun a b => Int.le_total a.timestamp b.timestamp⟩

instance : IsTrans Message Message.tsLE :=
  ⟨fun _ _ _ hab hbc => le_trans hab hbc⟩

instance : IsTotal Session Session.startLE :=
  ⟨fun a b => Int.le_total a.startedAt b.startedAt⟩

instance : IsTrans Session Session.startLE :=
  ⟨fun _ _ _ hab hbc => le_trans hab hbc⟩

instance : IsTotal OCPart OCPart.timeLE :=
  ⟨fun a b => Int.le_total (partTimeKey a) (partTimeKey b)⟩

instance : IsTrans OCPart OCPart.timeLE :=
  ⟨fun _ _ _ hab hbc => le_trans hab hbc⟩

/-- A record's timestamp field makes both `parseTimestamp` and
`deriveSessionId` independent of the scan-time clock: it is truthy and yields a
clock-free instant. -/
def tsIndependent : Option TSVal → Bool
  | some (.date _) => true
  | some (.num n) => n != 0
  | some (.str s) => s != "" && (parseDateString s).isSome
  | none => false

/-- A timestamp value that `parseTimestamp` resolves without consulting the
scan-time clock. -/
def parseableTSV : Option TSVal → Bool
  | some (.date _) => true
  | some (.num _) => true
  | some (.str s) => (parseDateString s).isSome
  | none => false

/-- Default scan options used by concrete evaluations: chars mode, no
filter. -/
def opts0 : ScanOptions :=
  { claudeRoot := "/c", opencodeRoot := "/o", sizeMode := .chars, since := none }

/-- A Source-A record with no parsable timestamp and no session id (the record
of Scenario E). -/
def objE : ClaudeObj :=
  { type := some "user", summary := none,
    message := some { role := some "user", content := some (.str "hi") },
    sessionId := none, requestId := none, conversationId := none, threadId := none,
    timestamp := none, cwd := none }

/-- A Source-A record with an explicit session id and an explicit numeric
timestamp. -/
def objB : ClaudeObj :=
  { type := some "assistant", summary := none,
    message := some
      { role := some "assistant",
        content := some (.arr
          [{ type := some "text", text := some "ok", thinking := none, input := none,
             content := none }]) },
    sessionId := some "proj-0", requestId := none, conversationId := none, threadId := none,
    timestamp := some (.num 100), cwd := none }

/-- A one-file Source-A tree holding a clock-dependent record (`objE`) next to a
clock-free one (`objB`). -/
def filesC8 : List CFile :=
  [{ dirName := "proj", mtime := 50, records := [objE, objB] }]

/-- The scan tree of `filesC8`, with no Source-B data. -/
def treeC8 : ScanTree :=
  { claudeFiles := filesC8, opencodeUnits := [] }

/-- A Source-A user record carrying a tool_result content part. -/
def objToolResult : ClaudeObj :=
  { type := some "user", summary := none,
    message := some
      { role := some "user",
        content := some (.arr
          [{ type := some "tool_result", text := none, thinking := none, input := none,
             content := some (.str "done") }]) },
    sessionId := some "s", requestId := none, conversationId := none, threadId := none,
    timestamp := some (.num 7), cwd := none }

/-- An empty `time` object. -/
def noTime : OCTime :=
  { start := none, created := none, «end» := none, completed := none }

/-- A completed OpenCode tool part with recorded start 100 and end 200. -/
def toolPartDone : OCPart :=
  { type := some "tool", text := none, reasoning := none, tool := some "bash",
    callID := some "c1", payload := none, input := none, time := noTime,
    state := some
      { status := some "completed", input := some (.str "ls"), output := some "ok",
        time := { start := some 100, created := none, «end» := some 200, completed := none } } }

/-- The same tool part with pending status. -/
def toolPartPending : OCPart :=
  { type := some "tool", text := none, reasoning := none, tool := some "bash",
    callID := some "c1", payload := none, input := none, time := noTime,
    state := some
      { status := some "pending", input := some (.str "ls"), output := none,
        time := { start := some 100, created := none, «end» := some 200, completed := none } } }

/-- A completed tool part whose recorded end time is the epoch instant 0. -/
def toolPartZeroEnd : OCPart :=
  { type := some "tool", text := none, reasoning := none, tool := some "bash",
    callID := some "c1", payload := none, input := none, time := noTime,
    state := some
      { status := some "completed", input := some (.str "ls"), output := some "ok",
        time := { start := some 100, created := none, «end» := some 0, completed := none } } }

/-- An OpenCode assistant message with no declared times. -/
def asstMsg : OCMsg :=
  { role := some "assistant", time := none, timestamp := none, createdAt := none, created := none }

/-- A one-message session built from the placeholder message. -/
def sessionW : Session :=
  mkSession [blankMessage] blankMessage

/-- A concrete OpenCode scan unit: the assistant message with one completed tool
part. -/
def unitW : OCUnit :=
  { sessionId := "s1", obj := asstMsg, info := none, dirName := "proj",
    msgMtime := 10, partMtimes := [20], parts := [toolPartDone] }

/-- An OpenCode assistant message with a declared creation time. -/
def asstMsgT : OCMsg :=
  { role := some "assistant", time := some { created := some (.num 400) }, timestamp := none,
    createdAt := none, created := none }

/-- The scan unit of `asstMsgT`. -/
def unitT : OCUnit :=
  { sessionId := "s1", obj := asstMsgT, info := none, dirName := "proj",
    msgMtime := 10, partMtimes := [20], parts := [toolPartDone] }

/-- A scan tree whose records all carry parsable timestamps. -/
def treeT : ScanTree :=
  { claudeFiles := [{ dirName := "proj", mtime := 50, records := [objB] }],
    opencodeUnits := [unitT] }

theorem ne_nil_of_isEmpty_eq_false {α : Type} {l : List α} (h : l.isEmpty = false) : l ≠ [] := by
  cases l with
  | nil => simp [List.isEmpty] at h
  | cons x xs => simp

theorem headD_mem {α : Type} {l : List α} (d : α) (h : l ≠ []) : l.headD d ∈ l := by
  cases l with
  | nil => exact absurd rfl h
  | cons x xs => simp

theorem getLastD_mem {α : Type} : ∀ (l : List α) (d : α), l ≠ [] → l.getLastD d ∈ l
  | [], _, h => absurd rfl h
  | [x], d, _ => by simp [List.getLastD_cons, List.getLastD]
  | x :: y :: ys, d, _ => by
      rw [List.getLastD_cons]
      exact List.mem_cons_of_mem x (getLastD_mem (y :: ys) x (by simp))

theorem sorted_headD_ts {l : List Message} {d : Message} (hs : List.Sorted Message.tsLE l)
    {a : Message} (ha : a ∈ l) : (l.headD d).timestamp ≤ a.timestamp := by
  cases l with
  | nil => cases ha
  | cons x xs =>
      rcases List.mem_cons.mp ha with h | h
      · subst h; simp
      · have := (List.pairwise_cons.mp hs).1 a h
        simpa [Message.tsLE] using this

theorem sorted_le_getLastD_ts :
    ∀ {l : List Message} (d : Message), List.Sorted Message.tsLE l →
      ∀ a ∈ l, a.timestamp ≤ (l.getLastD d).timestamp
  | [], _, _, a, ha => absurd ha (List.not_mem_nil a)
  | x :: xs, d, hs, a, ha => by
      rw [List.getLastD_cons]
      rcases List.mem_cons.mp ha with h | h
      · subst h
        cases xs with
        | nil => simp [List.getLastD]
        | cons y ys =>
            have hmem : (y :: ys).getLastD a ∈ y :: ys := getLastD_mem (y :: ys) a (by simp)
            exact (List.pairwise_cons.mp hs).1 _ hmem
      · exact sorted_le_getLastD_ts x (hs.of_cons) a h

theorem foldl_fm_init_le (l : List Message) (t0 : Int) :
    t0 ≤ l.foldl (fun latest m => if m.fileModifiedAt > latest then m.fileModifiedAt else latest)
      t0 := by
  induction l generalizing t0 with
  | nil => simp
  | cons x xs ih =>
      refine le_trans ?_ (ih (if x.fileModifiedAt > t0 then x.fileModifiedAt else t0))
      split <;> omega

theorem foldl_fm_mem_le (l : List Message) (t0 : Int) :
    ∀ m ∈ l,
      m.fileModifiedAt ≤
        l.foldl (fun latest m => if m.fileModifiedAt > latest then m.fileModifiedAt else latest)
          t0 := by
  induction l generalizing t0 with
  | nil => intro m hm; cases hm
  | cons x xs ih =>
      intro m hm
      rcases List.mem_cons.mp hm with h | h
      · subst h
        simp only [List.foldl_cons]
        refine le_trans ?_ (foldl_fm_init_le xs _)
        split <;> omega
      · exact ih _ m h

theorem foldl_fm_attained (l : List Message) (t0 : Int) :
    l.foldl (fun latest m => if m.fileModifiedAt > latest then m.fileModifiedAt else latest) t0 =
        t0 ∨
      ∃ m ∈ l,
        l.foldl (fun latest m => if m.fileModifiedAt > latest then m.fileModifiedAt else latest)
            t0 =
          m.fileModifiedAt := by
  induction l generalizing t0 with
  | nil => left; rfl
  | cons x xs ih =>
      rcases ih (if x.fileModifiedAt > t0 then x.fileModifiedAt else t0) with h | ⟨m, hm, h⟩
      · by_cases hx : x.fileModifiedAt > t0
        · right
          exact ⟨x, List.mem_cons_self x xs, by simpa [hx] using h⟩
        · left
          simpa [hx] using h
      · right
        exact ⟨m, List.mem_cons_of_mem x hm, h⟩

theorem upsert_keys_mem {β : Type} (m : List (String × List β)) (k : String) (v : β)
    (x : String) :
    x ∈ (upsertAList m k v).map Prod.fst ↔ (x ∈ m.map Prod.fst ∨ x = k) := by
  induction m with
  | nil => simp [upsertAList]
  | cons kv rest ih =>
      obtain ⟨k2, vs⟩ := kv
      by_cases h : k2 = k
      · subst h
        simp [upsertAList]
        intro h2
        exact Or.inl h2
      · simp [upsertAList, h, ih]
        tauto

theorem upsert_keys_nodup {β : Type} {m : List (String × List β)}
    (h : (m.map Prod.fst).Nodup) (k : String) (v : β) :
    ((upsertAList m k v).map Prod.fst).Nodup := by
  induction m with
  | nil => simp [upsertAList]
  | cons kv rest ih =>
      obtain ⟨k2, vs⟩ := kv
      simp only [List.map_cons, List.nodup_cons] at h
      by_cases hk : k2 = k
      · subst hk
        simpa [upsertAList] using h
      · simp only [upsertAList, if_neg hk, List.map_cons, List.nodup_cons]
        refine ⟨?_, ih h.2⟩
        intro hmem
        rcases (upsert_keys_mem rest k v k2).mp hmem with h2 | h2
        · exact h.1 h2
        · exact hk h2

theorem upsert_buckets {β : Type} {P : β → String → Prop} {m : List (String × List β)}
    {k : String} {v : β} (hm : ∀ kv ∈ m, ∀ x ∈ kv.2, P x kv.1) (hv : P v k) :
    ∀ kv ∈ upsertAList m k v, ∀ x ∈ kv.2, P x kv.1 := by
  induction m with
  | nil =>
      intro kv hkv x hx
      simp only [upsertAList, List.mem_singleton] at hkv
      subst hkv
      simp only [List.mem_singleton] at hx
      subst hx
      exact hv
  | cons kv0 rest ih =>
      obtain ⟨k2, vs⟩ := kv0
      have hrest : ∀ kv ∈ rest, ∀ x ∈ kv.2, P x kv.1 := fun kv hkv => hm kv (by simp [hkv])
      by_cases hk : k2 = k
      · subst hk
        intro kv hkv x hx
        simp only [upsertAList, if_pos rfl] at hkv
        rcases List.mem_cons.mp hkv with h | h
        · subst h
          simp at hx
          rcases hx with h2 | h2
          · exact hm (k2, vs) (by simp) x h2
          · subst h2; exact hv
        · exact hrest kv h x hx
      · intro kv hkv x hx
        simp only [upsertAList, if_neg hk] at hkv
        rcases List.mem_cons.mp hkv with h | h
        · subst h
          exact hm (k2, vs) (by simp) x hx
        · exact ih hrest kv h x hx

theorem upsert_flatten_perm {β : Type} (m : List (String × List β)) (k : String) (v : β) :
    ((upsertAList m k v).map Prod.snd).flatten.Perm ((m.map Prod.snd).flatten ++ [v]) := by
  induction m with
  | nil => simp [upsertAList]
  | cons kv rest ih =>
      obtain ⟨k2, vs⟩ := kv
      by_cases hk : k2 = k
      · subst hk
        simp only [upsertAList, if_pos, List.map_cons, List.flatten_cons, List.append_assoc]
        exact (List.Perm.append_left vs (List.perm_append_comm))
      · simp only [upsertAList, if_neg hk, List.map_cons, List.flatten_cons, List.append_assoc]
        exact List.Perm.append_left vs ih

theorem groupByKey_aux_nodup {β : Type} (key : β → String) (l : List β) :
    ∀ m : List (String × List β), (m.map Prod.fst).Nodup →
      (((l.foldl (fun acc v => upsertAList acc (key v) v) m)).map Prod.fst).Nodup := by
  induction l with
  | nil => intro m hm; simpa using hm
  | cons v vs ih =>
      intro m hm
      simpa using ih (upsertAList m (key v) v) (upsert_keys_nodup hm (key v) v)

theorem groupByKey_nodup {β : Type} (key : β → String) (l : List β) :
    ((groupByKey key l).map Prod.fst).Nodup :=
  groupByKey_aux_nodup key l [] (by simp)

theorem groupByKey_aux_buckets {β : Type} (key : β → String) (l : List β) :
    ∀ m : List (String × List β), (∀ kv ∈ m, ∀ x ∈ kv.2, key x = kv.1) →
      ∀ kv ∈ l.foldl (fun acc v => upsertAList acc (key v) v) m, ∀ x ∈ kv.2, key x = kv.1 := by
  induction l with
  | nil => intro m hm; simpa using hm
  | cons v vs ih =>
      intro m hm
      exact ih (upsertAList m (key v) v) (upsert_buckets hm rfl)

theorem groupByKey_buckets {β : Type} (key : β → String) (l : List β) :
    ∀ kv ∈ groupByKey key l, ∀ x ∈ kv.2, key x = kv.1 :=
  groupByKey_aux_buckets key l [] (by simp)

theorem groupByKey_aux_flatten {β : Type} (key : β → String) (l : List β) :
    ∀ m : List (String × List β),
      ((l.foldl (fun acc v => upsertAList acc (key v) v) m).map Prod.snd).flatten.Perm
        ((m.map Prod.snd).flatten ++ l) := by
  induction l with
  | nil => intro m; simp
  | cons v vs ih =>
      intro m
      refine (ih (upsertAList m (key v) v)).trans ?_
      have h1 := upsert_flatten_perm m (key v) v
      exact (h1.append_right vs).trans (List.Perm.of_eq (by simp))

theorem groupByKey_flatten_perm {β : Type} (key : β → String) (l : List β) :
    ((groupByKey key l).map Prod.snd).flatten.Perm l := by
  simpa using groupByKey_aux_flatten key l []

theorem groupByKey_mem {β : Type} (key : β → String) (l : List β) {x : β} (hx : x ∈ l) :
    ∃ kv ∈ groupByKey key l, kv.1 = key x ∧ x ∈ kv.2 := by
  have hflat : x ∈ ((groupByKey key l).map Prod.snd).flatten :=
    (groupByKey_flatten_perm key l).mem_iff.mpr hx
  rcases List.mem_flatten.mp hflat with ⟨ys, hys, hxy⟩
  rcases List.mem_map.mp hys with ⟨kv, hkv, hsnd⟩
  refine ⟨kv, hkv, ?_, by rw [hsnd]; exact hxy⟩
  exact (groupByKey_buckets key l kv hkv x (by rw [hsnd]; exact hxy)).symm

/-- C2: every Session built by `buildSessions` has a non-empty message list
sorted ascending by timestamp; `startedAt` and `endedAt` are the attained
minimum and maximum message timestamps (so `startedAt ≤ m.timestamp ≤ endedAt`
for every member), and `fileLastModified` is the attained maximum
`fileModifiedAt` across member messages. -/
theorem buildSessions_invariants (msgs : List Message) (s : Session)
    (hs : s ∈ buildSessions msgs) :
    s.messages ≠ [] ∧
    List.Sorted (fun a b : Message => a.timestamp ≤ b.timestamp) s.messages ∧
    (∀ m ∈ s.messages, s.startedAt ≤ m.timestamp ∧ m.timestamp ≤ s.endedAt) ∧
    s.startedAt ∈ s.messages.map Message.timestamp ∧
    s.endedAt ∈ s.messages.map Message.timestamp ∧
    (∀ m ∈ s.messages, m.fileModifiedAt ≤ s.fileLastModified) ∧
    s.fileLastModified ∈ s.messages.map Message.fileModifiedAt := by
  simp only [buildSessions, List.mem_filterMap] at hs
  rcases hs with ⟨kv, hkv, hf⟩
  rcases hgroup : kv.2 with _ | ⟨m0, rest⟩ <;> rw [hgroup] at hf
  · exact absurd hf (by simp)
  have hsession : s = mkSession (m0 :: rest) m0 := by
    injection hf.symm
  subst hsession
  set L := List.insertionSort Message.tsLE (m0 :: rest) with hL
  have hlen : L.length = rest.length + 1 := by
    simpa using List.length_insertionSort Message.tsLE (m0 :: rest)
  have hLne : L ≠ [] := by
    intro h
    rw [h] at hlen
    simp at hlen
  have hsort : List.Sorted Message.tsLE L := List.sorted_insertionSort Message.tsLE (m0 :: rest)
  have hmsg : (mkSession (m0 :: rest) m0).messages = L := rfl
  have hstart : (mkSession (m0 :: rest) m0).startedAt = (L.headD m0).timestamp := rfl
  have hend : (mkSession (m0 :: rest) m0).endedAt = (L.getLastD m0).timestamp := rfl
  have hflm :
      (mkSession (m0 :: rest) m0).fileLastModified =
        L.foldl (fun latest m => if m.fileModifiedAt > latest then m.fileModifiedAt else latest)
          (L.headD m0).fileModifiedAt := rfl
  rw [hmsg, hstart, hend, hflm]
  refine ⟨hLne, hsort, ?_, ?_, ?_, ?_, ?_⟩
  · intro m hm
    exact ⟨sorted_headD_ts hsort hm, sorted_le_getLastD_ts m0 hsort m hm⟩
  · exact List.mem_map_of_mem Message.timestamp (headD_mem m0 hLne)
  · exact List.mem_map_of_mem Message.timestamp (getLastD_mem L m0 hLne)
  · intro m hm
    exact foldl_fm_mem_le L _ m hm
  · rcases foldl_fm_attained L (L.headD m0).fileModifiedAt with h | ⟨m, hm, h⟩
    · rw [h]
      exact List.mem_map_of_mem Message.fileModifiedAt (headD_mem m0 hLne)
    · rw [h]
      exact List.mem_map_of_mem Message.fileModifiedAt hm

/-- C2 witness: the invariants evaluated on the session built from one concrete
message. -/
theorem buildSessions_invariants_witness :
    ((buildSessions [blankMessage]).headD sessionW).messages ≠ [] ∧
    List.Sorted (fun a b : Message => a.timestamp ≤ b.timestamp)
      ((buildSessions [blankMessage]).headD sessionW).messages ∧
    (∀ m ∈ ((buildSessions [blankMessage]).headD sessionW).messages,
      ((buildSessions [blankMessage]).headD sessionW).startedAt ≤ m.timestamp ∧
        m.timestamp ≤ ((buildSessions [blankMessage]).headD sessionW).endedAt) ∧
    ((buildSessions [blankMessage]).headD sessionW).startedAt ∈
      ((buildSessions [blankMessage]).headD sessionW).messages.map Message.timestamp ∧
    ((buildSessions [blankMessage]).headD sessionW).endedAt ∈
      ((buildSessions [blankMessage]).headD sessionW).messages.map Message.timestamp ∧
    (∀ m ∈ ((buildSessions [blankMessage]).headD sessionW).messages,
      m.fileModifiedAt ≤ ((buildSessions [blankMessage]).headD sessionW).fileLastModified) ∧
    ((buildSessions [blankMessage]).headD sessionW).fileLastModified ∈
      ((buildSessions [blankMessage]).headD sessionW).messages.map Message.fileModifiedAt :=
  buildSessions_invariants [blankMessage] ((buildSessions [blankMessage]).headD sessionW)
    (headD_mem sessionW (ne_nil_of_isEmpty_eq_false rfl))

/-- C3: `groupSessionsByDate` keys every Session by the calendar date of its own
`startedAt`, the date keys are pairwise distinct, the buckets together are a
permutation of the input (so each Session lands in exactly one bucket), and
every bucket is sorted ascending by `startedAt`. -/
theorem groupSessionsByDate_spec (sessions : List Session) :
    ((groupSessionsByDate sessions).map Prod.fst).Nodup ∧
    (∀ kv ∈ groupSessionsByDate sessions, ∀ s ∈ kv.2, formatDateKey s.startedAt = kv.1) ∧
    (∀ s ∈ sessions,
      ∃ kv ∈ groupSessionsByDate sessions, kv.1 = formatDateKey s.startedAt ∧ s ∈ kv.2) ∧
    ((groupSessionsByDate sessions).map Prod.snd).flatten.Perm sessions ∧
    (∀ kv ∈ groupSessionsByDate sessions,
      List.Sorted (fun a b : Session => a.startedAt ≤ b.startedAt) kv.2) := by
  refine ⟨?_, ?_, ?_, ?_, ?_⟩
  · have h1 :
        ((groupSessionsByDate sessions).map Prod.fst) =
          ((groupByKey (fun s => formatDateKey s.startedAt) sessions).map Prod.fst) := by
      simp only [groupSessionsByDate, List.map_map]
      rfl
    rw [h1]
    exact groupByKey_nodup _ sessions
  · intro kv hkv s hskv
    simp only [groupSessionsByDate, List.mem_map] at hkv
    rcases hkv with ⟨kv0, hkv0, hfkv⟩
    subst hfkv
    have hmem : s ∈ kv0.2 :=
      (List.perm_insertionSort Session.startLE kv0.2).mem_iff.mp hskv
    exact groupByKey_buckets _ sessions kv0 hkv0 s hmem
  · intro s hsmem
    rcases groupByKey_mem (fun s => formatDateKey s.startedAt) sessions hsmem with
      ⟨kv0, hkv0, hkey, hin⟩
    refine ⟨(kv0.1, List.insertionSort Session.startLE kv0.2), ?_, hkey, ?_⟩
    · simp only [groupSessionsByDate, List.mem_map]
      exact ⟨kv0, hkv0, rfl⟩
    · exact (List.perm_insertionSort Session.startLE kv0.2).mem_iff.mpr hin
  · have h2 :
        ((groupSessionsByDate sessions).map Prod.snd).flatten.Perm
          (((groupByKey (fun s => formatDateKey s.startedAt) sessions).map Prod.snd).flatten) := by
      simp only [groupSessionsByDate, List.map_map]
      induction groupByKey (fun s => formatDateKey s.startedAt) sessions with
      | nil => simp
      | cons kv0 rest ih =>
          simp only [List.map_cons, List.flatten_cons]
          exact (List.perm_insertionSort Session.startLE kv0.2).append ih
    exact h2.trans (groupByKey_flatten_perm _ sessions)
  · intro kv hkv
    simp only [groupSessionsByDate, List.mem_map] at hkv
    rcases hkv with ⟨kv0, _, hfkv⟩
    subst hfkv
    exact List.sorted_insertionSort Session.startLE kv0.2

/-- C3 witness: the bucket map of one concrete session, whose key is the
calendar date of its `startedAt`. -/
theorem groupSessionsByDate_spec_witness :
    formatDateKey sessionW.startedAt = "1970-01-01" ∧
    ((groupSessionsByDate [sessionW]).map Prod.fst).Nodup ∧
    ((groupSessionsByDate [sessionW]).map Prod.snd).flatten.Perm [sessionW] :=
  ⟨(groupSessionsByDate_spec [sessionW]).2.1 ("1970-01-01", [sessionW])
      (by
        rw [show groupSessionsByDate [sessionW] = [("1970-01-01", [sessionW])] from rfl]
        exact List.Mem.head _)
      sessionW (List.Mem.head _),
   (groupSessionsByDate_spec [sessionW]).1,
   (groupSessionsByDate_spec [sessionW]).2.2.2.1⟩

/-- C4: classification of a Source-A record — a `user` record with a
tool_result-typed content part becomes tool_result and otherwise user; an
`assistant` record with a tool_use-typed content part becomes tool_call and
otherwise assistant; any other discriminator (including a missing one) becomes
assistant. -/
theorem classifyClaudeMessage_spec (obj : ClaudeObj) :
    (obj.type = some "user" →
      ((∃ m ps, obj.message = some m ∧ m.content = some (.arr ps) ∧
          ∃ p ∈ ps, p.type = some "tool_result") →
            classifyClaudeMessage obj = .tool_result) ∧
      (¬ (∃ m ps, obj.message = some m ∧ m.content = some (.arr ps) ∧
          ∃ p ∈ ps, p.type = some "tool_result") →
            classifyClaudeMessage obj = .user)) ∧
    (obj.type = some "assistant" →
      ((∃ m ps, obj.message = some m ∧ m.content = some (.arr ps) ∧
          ∃ p ∈ ps, p.type = some "tool_use") →
            classifyClaudeMessage obj = .tool_call) ∧
      (¬ (∃ m ps, obj.message = some m ∧ m.content = some (.arr ps) ∧
          ∃ p ∈ ps, p.type = some "tool_use") →
            classifyClaudeMessage obj = .assistant)) ∧
    (obj.type ≠ some "user" → obj.type ≠ some "assistant" →
      classifyClaudeMessage obj = .assistant) := by
  refine ⟨?_, ?_, ?_⟩
  · intro hty
    constructor
    · rintro ⟨m, ps, hm, hc, p, hp, hpt⟩
      have hany : ps.any (fun p => p.type == some "tool_result") = true :=
        List.any_eq_true.mpr ⟨p, hp, by simp [hpt]⟩
      simp [classifyClaudeMessage, hty, hm, hc, hany]
    · intro hno
      rcases hm : obj.message with _ | m
      · simp [classifyClaudeMessage, hty, hm]
      · rcases hc : m.content with _ | c
        · simp [classifyClaudeMessage, hty, hm, hc]
        · rcases c with s | ps
          · simp [classifyClaudeMessage, hty, hm, hc]
          · have hany : ps.any (fun p => p.type == some "tool_result") = false := by
              by_contra h
              rw [Bool.not_eq_false, List.any_eq_true] at h
              rcases h with ⟨p, hp, hpt⟩
              exact hno ⟨m, ps, hm, hc, p, hp, by simpa using hpt⟩
            simp [classifyClaudeMessage, hty, hm, hc, hany]
  · intro hty
    constructor
    · rintro ⟨m, ps, hm, hc, p, hp, hpt⟩
      have hany : ps.any (fun p => p.type == some "tool_use") = true :=
        List.any_eq_true.mpr ⟨p, hp, by simp [hpt]⟩
      simp [classifyClaudeMessage, hty, hm, hc, hany]
    · intro hno
      rcases hm : obj.message with _ | m
      · simp [classifyClaudeMessage, hty, hm]
      · rcases hc : m.content with _ | c
        · simp [classifyClaudeMessage, hty, hm, hc]
        · rcases c with s | ps
          · simp [classifyClaudeMessage, hty, hm, hc]
          · have hany : ps.any (fun p => p.type == some "tool_use") = false := by
              by_contra h
              rw [Bool.not_eq_false, List.any_eq_true] at h
              rcases h with ⟨p, hp, hpt⟩
              exact hno ⟨m, ps, hm, hc, p, hp, by simpa using hpt⟩
            simp [classifyClaudeMessage, hty, hm, hc, hany]
  · intro h1 h2
    unfold classifyClaudeMessage
    split
    · exact absurd (by assumption) h1
    · exact absurd (by assumption) h2
    · rfl

/-- C4 witness: a user record with a tool_result part classifies as tool_result,
a user record with plain string content classifies as user, and an unknown
discriminator classifies as assistant. -/
theorem classifyClaudeMessage_spec_witness :
    classifyClaudeMessage objToolResult = .tool_result ∧
    classifyClaudeMessage objE = .user ∧
    classifyClaudeMessage
      { type := some "summary", summary := some "s", message := none, sessionId := none,
        requestId := none, conversationId := none, threadId := none, timestamp := none,
        cwd := none } = .assistant :=
  ⟨((classifyClaudeMessage_spec objToolResult).1 rfl).1
      ⟨{ role := some "user",
         content := some (.arr
           [{ type := some "tool_result", text := none, thinking := none, input := none,
              content := some (.str "done") }]) },
       [{ type := some "tool_result", text := none, thinking := none, input := none,
          content := some (.str "done") }],
       rfl, rfl,
       { type := some "tool_result", text := none, thinking := none, input := none,
         content := some (.str "done") },
       List.Mem.head _, rfl⟩,
   ((classifyClaudeMessage_spec objE).1 rfl).2
      (by
        rintro ⟨m, ps, hm, hc, p, hp, hpt⟩
        rw [show objE.message = some { role := some "user", content := some (.str "hi") } from rfl]
          at hm
        obtain rfl : m = { role := some "user", content := some (.str "hi") } :=
          (Option.some.inj hm).symm
        simp at hc),
   (classifyClaudeMessage_spec _).2.2 (by decide) (by decide)⟩

/-- C5 (amended): an OpenCode assistant message with one tool part — when the
part is completed and its recorded start time is truthy, it expands to exactly
two Messages: a tool_call at the recorded start time and a tool_result at the
recorded end time when that is truthy, or at start + 1 ms when the end time is
missing or is the falsy epoch instant 0 (the source's truthiness test treats a
recorded epoch-0 end like an unrecorded one); when the part is not completed it
expands to nothing. -/
theorem parseOpenCodeMessage_tool_part (obj : OCMsg) (sessionId : String)
    (sessionInfo : Option OCSessionInfo) (projectDirName : String) (fileMtime : Int)
    (options : ScanOptions) (now : Int) (p : OCPart) (st : OCState)
    (hrole : obj.role = some "assistant")
    (htype : p.type = some "tool")
    (hstate : p.state = some st) :
    (∀ T0 T1, st.status = some "completed" → st.time.start = some T0 → T0 ≠ 0 →
      st.time.«end» = some T1 → T1 ≠ 0 →
      (parseOpenCodeMessage obj sessionId sessionInfo projectDirName fileMtime options now
          [p]).map (fun m => (m.msgType, m.timestamp)) =
        [(.tool_call, T0), (.tool_result, T1)]) ∧
    (∀ T0, st.status = some "completed" → st.time.start = some T0 → T0 ≠ 0 →
      st.time.«end» = none →
      (parseOpenCodeMessage obj sessionId sessionInfo projectDirName fileMtime options now
          [p]).map (fun m => (m.msgType, m.timestamp)) =
        [(.tool_call, T0), (.tool_result, T0 + 1)]) ∧
    (∀ T0, st.status = some "completed" → st.time.start = some T0 → T0 ≠ 0 →
      st.time.«end» = some 0 →
      (parseOpenCodeMessage obj sessionId sessionInfo projectDirName fileMtime options now
          [p]).map (fun m => (m.msgType, m.timestamp)) =
        [(.tool_call, T0), (.tool_result, T0 + 1)]) ∧
    (st.status ≠ some "completed" →
      parseOpenCodeMessage obj sessionId sessionInfo projectDirName fileMtime options now
          [p] = []) := by
  refine ⟨?_, ?_, ?_, ?_⟩
  · intro T0 T1 hstatus hstart hT0 hend hT1
    simp [parseOpenCodeMessage, hrole, htype, hstate, hstatus, hstart, hT0, hend, hT1,
      jsOrInt, List.insertionSort, List.orderedInsert]
  · intro T0 hstatus hstart hT0 hend
    simp [parseOpenCodeMessage, hrole, htype, hstate, hstatus, hstart, hT0, hend,
      jsOrInt, List.insertionSort, List.orderedInsert]
  · intro T0 hstatus hstart hT0 hend
    simp [parseOpenCodeMessage, hrole, htype, hstate, hstatus, hstart, hT0, hend,
      jsOrInt, List.insertionSort, List.orderedInsert]
  · intro hstatus
    simp [parseOpenCodeMessage, hrole, htype, hstate, hstatus,
      List.insertionSort, List.orderedInsert]

/-- C5 witness: Scenarios B and C and the epoch-0 end evaluated — the concrete
completed tool part with start 100 / end 200 yields the tool_call / tool_result
pair, the same part with pending status yields nothing, and the completed part
whose recorded end is epoch 0 yields its tool_result at start + 1. -/
theorem parseOpenCodeMessage_tool_part_witness :
    (parseOpenCodeMessage asstMsg "s1" none "proj" 999 opts0 5 [toolPartDone]).map
        (fun m => (m.msgType, m.timestamp)) = [(.tool_call, 100), (.tool_result, 200)] ∧
    parseOpenCodeMessage asstMsg "s1" none "proj" 999 opts0 5 [toolPartPending] = [] ∧
    (parseOpenCodeMessage asstMsg "s1" none "proj" 999 opts0 5 [toolPartZeroEnd]).map
        (fun m => (m.msgType, m.timestamp)) = [(.tool_call, 100), (.tool_result, 101)] :=
  ⟨(parseOpenCodeMessage_tool_part asstMsg "s1" none "proj" 999 opts0 5 toolPartDone
        { status := some "completed", input := some (.str "ls"), output := some "ok",
          time := { start := some 100, created := none, «end» := some 200, completed := none } }
        rfl rfl rfl).1
      100 200 rfl rfl (by decide) rfl (by decide),
   (parseOpenCodeMessage_tool_part asstMsg "s1" none "proj" 999 opts0 5 toolPartPending
        { status := some "pending", input := some (.str "ls"), output := none,
          time := { start := some 100, created := none, «end» := some 200, completed := none } }
        rfl rfl rfl).2.2.2
      (by decide),
   (parseOpenCodeMessage_tool_part asstMsg "s1" none "proj" 999 opts0 5 toolPartZeroEnd
        { status := some "completed", input := some (.str "ls"), output := some "ok",
          time := { start := some 100, created := none, «end» := some 0, completed := none } }
        rfl rfl rfl).2.2.1
      100 rfl rfl (by decide) rfl⟩

/-- C5 counterexample: the claim as stated fails at a completed tool part whose
recorded end time is the epoch instant 0 — the code timestamps the tool_result
at start + 1 ms (101), not at the recorded end time (0), because the end-time
truthiness test treats 0 as unrecorded. -/
theorem parseOpenCodeMessage_zero_end_counterexample :
    (parseOpenCodeMessage asstMsg "s1" none "proj" 999 opts0 5 [toolPartZeroEnd]).map
        (fun m => (m.msgType, m.timestamp)) = [(.tool_call, 100), (.tool_result, 101)] ∧
    (parseOpenCodeMessage asstMsg "s1" none "proj" 999 opts0 5 [toolPartZeroEnd]).map
        (fun m => (m.msgType, m.timestamp)) ≠ [(.tool_call, 100), (.tool_result, 0)] :=
  ⟨rfl, by decide⟩

theorem one_le_measureClaudeMessage (obj : ClaudeObj) (mode : SizeMode) :
    1 ≤ measureClaudeMessage obj mode :=
  Nat.le_max_right _ 1

theorem one_le_measureOpenCodeMessage (e : OCEnhanced) (mode : SizeMode) :
    1 ≤ measureOpenCodeMessage e mode :=
  Nat.le_max_right _ 1

theorem parseClaudeMessage_size {obj : ClaudeObj} {dn : String} {mt : Int}
    {opts : ScanOptions} {now : Int} {m : Message}
    (h : parseClaudeMessage obj dn mt opts now = some m) :
    m.size = measureClaudeMessage obj opts.sizeMode := by
  simp only [parseClaudeMessage] at h
  split at h
  · cases h
  · rw [← Option.some.inj h]

theorem one_le_size_of_mem_parseOpenCode {obj : OCMsg} {sessionId : String}
    {info : Option OCSessionInfo} {dn : String} {mt : Int} {opts : ScanOptions} {now : Int}
    {parts : List OCPart} {m : Message}
    (hm : m ∈ parseOpenCodeMessage obj sessionId info dn mt opts now parts) :
    1 ≤ m.size := by
  simp only [parseOpenCodeMessage] at hm
  by_cases h1 : obj.role == some "user"
  · simp only [h1, if_true, List.mem_singleton] at hm
    subst hm
    exact one_le_measureOpenCodeMessage _ _
  · simp only [h1, Bool.false_eq_true, if_false] at hm
    by_cases h2 : obj.role == some "assistant"
    · simp only [h2, if_true, List.mem_flatten] at hm
      rcases hm with ⟨l, hl, hml⟩
      rcases List.mem_map.mp hl with ⟨part, hpart, hfl⟩
      subst hfl
      by_cases c1 : (part.type == some "text") = true ∨ (part.type == some "reasoning") = true
      · simp only [c1, if_true, List.mem_singleton] at hml
        subst hml
        exact one_le_measureOpenCodeMessage _ _
      · simp only [c1, if_false] at hml
        by_cases c2 : (part.type == some "tool") = true
        · simp only [c2, if_true] at hml
          rcases hstate : part.state with _ | st <;> rw [hstate] at hml
          · cases hml
          · by_cases c3 : (st.status == some "completed") = true
            · simp only [c3, if_true] at hml
              rcases List.mem_cons.mp hml with hml | hml
              · subst hml; exact one_le_measureOpenCodeMessage _ _
              · rcases List.mem_cons.mp hml with hml | hml
                · subst hml; exact one_le_measureOpenCodeMessage _ _
                · cases hml
            · simp only [c3, if_false] at hml
              cases hml
        · simp only [c2, if_false] at hml
          cases hml
    · simp only [h2, Bool.false_eq_true, if_false] at hm
      cases hm

/-- C1: every Message either scanner produces, under every size mode, carries a
size of at least 1. -/
theorem scan_sizes_ge_one (files : List CFile) (units : List OCUnit) (options : ScanOptions)
    (now : Int) :
    (∀ m ∈ scanClaudeCodePure files options now, 1 ≤ m.size) ∧
    (∀ m ∈ scanOpenCodePure units options now, 1 ≤ m.size) := by
  constructor
  · intro m hm
    simp only [scanClaudeCodePure, List.mem_flatten] at hm
    rcases hm with ⟨l, hl, hml⟩
    rcases List.mem_map.mp hl with ⟨f, _, hfl⟩
    subst hfl
    rcases List.mem_filterMap.mp hml with ⟨obj, _, hobj⟩
    rcases hparse : parseClaudeMessage obj f.dirName f.mtime options now with _ | msg <;>
      simp only [hparse] at hobj
    · cases hobj
    · split at hobj
      · have hmm := Option.some.inj hobj
        subst hmm
        rw [parseClaudeMessage_size hparse]
        exact one_le_measureClaudeMessage obj options.sizeMode
      · cases hobj
  · intro m hm
    simp only [scanOpenCodePure, List.mem_flatten] at hm
    rcases hm with ⟨l, hl, hml⟩
    rcases List.mem_map.mp hl with ⟨u, _, hfl⟩
    subst hfl
    exact one_le_size_of_mem_parseOpenCode (List.mem_of_mem_filter hml)

/-- C1 witness: the size bound evaluated on a concrete message from each
scanner. -/
theorem scan_sizes_ge_one_witness :
    1 ≤ ((scanClaudeCodePure filesC8 opts0 0).headD blankMessage).size ∧
    1 ≤ ((scanOpenCodePure [unitW] opts0 0).headD blankMessage).size :=
  ⟨(scan_sizes_ge_one filesC8 [] opts0 0).1 _
      (headD_mem blankMessage (ne_nil_of_isEmpty_eq_false rfl)),
   (scan_sizes_ge_one [] [unitW] opts0 0).2 _
      (headD_mem blankMessage (ne_nil_of_isEmpty_eq_false rfl))⟩

theorem cacheGet_cacheSet_same (c : Cache) (k : String) (e : CacheEntry) :
    cacheGet (cacheSet c k e) k = some e := by
  induction c with
  | nil => simp [cacheGet, cacheSet, List.find?]
  | cons kv rest ih =>
      obtain ⟨k0, e0⟩ := kv
      by_cases hk : k0 = k
      · subst hk
        simp [cacheGet, cacheSet, List.find?]
      · have hbk : (k0 == k) = false := beq_eq_false_iff_ne.mpr hk
        simp only [cacheSet, if_neg hk]
        simp only [cacheGet, List.find?, hbk]
        simpa [cacheGet] using ih

theorem buildIndexM_scanned {options : ScanOptions} {tree : ScanTree} {cache : Cache}
    {t t' : Int} {i : IndexT} {c : Cache}
    (h : buildIndexM options tree cache t t' = (i, c, true)) :
    i = groupSessionsByDate (buildSessions (scanAll tree options t)) ∧
    c = cacheSet cache (generateCacheKey options)
        ⟨generateIndexHash (scanAll tree options t), i, t'⟩ := by
  simp only [buildIndexM] at h
  split at h
  · split at h
    · simp at h
    · injection h with h1 h2
      injection h2 with h2a h2b
      subst h1
      exact ⟨rfl, h2a.symm⟩
  · injection h with h1 h2
    injection h2 with h2a h2b
    subst h1
    exact ⟨rfl, h2a.symm⟩

theorem buildIndexM_hit {options : ScanOptions} {tree : ScanTree} {cache : Cache}
    {t t' : Int} {e : CacheEntry}
    (hget : cacheGet cache (generateCacheKey options) = some e)
    (hfresh : t - e.timestamp < CACHE_TTL) :
    buildIndexM options tree cache t t' = (e.index, cache, false) := by
  simp only [buildIndexM, hget]
  rw [if_pos hfresh]

/-- C6: once a build has scanned and stored its Index at time `t0'`, any build
with the same options entering less than the TTL after `t0'` returns the stored
Index and leaves the cache untouched — it does not scan even when the trees
differ; and a build issued on a cleared cache always scans, returning the
freshly computed Index. -/
theorem buildIndex_cache_spec (options : ScanOptions) (tree1 tree2 : ScanTree)
    (cache0 : Cache) (t0 t0' t1 t1' : Int) (i1 : IndexT) (c1 : Cache)
    (hfirst : buildIndexM options tree1 cache0 t0 t0' = (i1, c1, true))
    (hwithin : t1 - t0' < CACHE_TTL) :
    buildIndexM options tree2 c1 t1 t1' = (i1, c1, false) ∧
    (∀ (opts2 : ScanOptions) (tree : ScanTree) (t t2 : Int),
      (buildIndexM opts2 tree clearCache t t2).2.2 = true ∧
      (buildIndexM opts2 tree clearCache t t2).1 = indexPure tree opts2 t) := by
  constructor
  · have hc1 := (buildIndexM_scanned hfirst).2
    have hget :
        cacheGet c1 (generateCacheKey options) =
          some ⟨generateIndexHash (scanAll tree1 options t0), i1, t0'⟩ := by
      rw [hc1]
      exact cacheGet_cacheSet_same _ _ _
    exact buildIndexM_hit hget hwithin
  · intro opts2 tree t t2
    constructor <;> simp [buildIndexM, clearCache, cacheGet, List.find?, indexPure]

/-- C6 witness: the cache contract evaluated — a first build on the empty cache
at times (0, 1), a second build two milliseconds later with a different tree
serving the stored Index without scanning, and a build on a cleared cache
scanning. -/
theorem buildIndex_cache_spec_witness :
    buildIndexM opts0 { claudeFiles := [], opencodeUnits := [unitW] }
        ((buildIndexM opts0 treeC8 [] 0 1).2.1) 2 3 =
      ((buildIndexM opts0 treeC8 [] 0 1).1, (buildIndexM opts0 treeC8 [] 0 1).2.1, false) ∧
    (buildIndexM opts0 treeC8 clearCache 7 8).2.2 = true :=
  ⟨(buildIndex_cache_spec opts0 treeC8 { claudeFiles := [], opencodeUnits := [unitW] } [] 0 1 2 3
        (buildIndexM opts0 treeC8 [] 0 1).1 (buildIndexM opts0 treeC8 [] 0 1).2.1 rfl
        (by decide)).1,
   ((buildIndex_cache_spec opts0 treeC8 { claudeFiles := [], opencodeUnits := [unitW] } [] 0 1 2 3
        (buildIndexM opts0 treeC8 [] 0 1).1 (buildIndexM opts0 treeC8 [] 0 1).2.1 rfl
        (by decide)).2 opts0 treeC8 7 8).1⟩

/-- C7: the Source-A record with no parsable timestamp and no session id
(`objE`, scanned from directory `proj` out of a file with mtime 1000 at clock
5000000) still yields a Message, with the derived hour-bucket session id — but
its timestamp is the scan-time clock, not the file mtime: `parseTimestamp`
always returns a Date, so the `|| fileMtime` fallback of `parseClaudeMessage`
is unreachable. -/
theorem parseClaudeMessage_now_fallback_eval :
    (parseClaudeMessage objE "proj" 1000 opts0 5000000).map Message.timestamp = some 5000000 ∧
    (parseClaudeMessage objE "proj" 1000 opts0 5000000).map Message.timestamp ≠ some 1000 ∧
    (parseClaudeMessage objE "proj" 1000 opts0 5000000).map Message.sessionId = some "proj-1" :=
  ⟨rfl, by decide, rfl⟩

/-- C8 counterexample: the unchanged tree `treeC8` indexed at clock 0 and at
clock 200, cache cleared between the builds, produces the same session with its
two messages in a different order (the clock-fallback timestamp of `objE` moves
across the explicit timestamp of `objB`). -/
theorem buildIndex_not_clock_independent :
    ((buildIndexM opts0 treeC8 clearCache 0 0).1.map
        (fun kv => kv.2.map (fun s => s.messages.map Message.msgType))) ≠
      ((buildIndexM opts0 treeC8 clearCache 200 200).1.map
        (fun kv => kv.2.map (fun s => s.messages.map Message.msgType))) := by
  decide

theorem parseTimestamp_indep {v : Option TSVal} (hv : parseableTSV v = true) (t1 t2 : Int) :
    parseTimestamp v t1 = parseTimestamp v t2 := by
  rcases v with _ | v
  · simp [parseableTSV] at hv
  · rcases v with t | n | s
    · rfl
    · rfl
    · simp only [parseableTSV] at hv
      rcases hps : parseDateString s with _ | x
      · rw [hps] at hv
        simp at hv
      · simp [parseTimestamp, hps]

theorem tsIndependent_parseable {v : Option TSVal} (h : tsIndependent v = true) :
    parseableTSV v = true := by
  rcases v with _ | v
  · simp [tsIndependent] at h
  · rcases v with t | n | s <;> simp_all [tsIndependent, parseableTSV]

theorem deriveSessionId_indep {obj : ClaudeObj} (h : tsIndependent obj.timestamp = true)
    (dn : String) (t1 t2 : Int) :
    deriveSessionId obj dn t1 = deriveSessionId obj dn t2 := by
  unfold deriveSessionId
  rcases jsOrStr [obj.conversationId, obj.threadId] with _ | cid
  · rcases hv : obj.timestamp with _ | v
    · rw [hv] at h
      simp [tsIndependent] at h
    · rcases v with t | n | s
      · simp [TSVal.truthy]
      · rw [hv] at h
        simp only [tsIndependent, bne_iff_ne, ne_eq, decide_eq_true_eq] at h
        simp [TSVal.truthy, h]
      · rw [hv] at h
        simp only [tsIndependent, Bool.and_eq_true, bne_iff_ne, ne_eq,
          decide_eq_true_eq] at h
        simp [TSVal.truthy, h.1]
  · rfl

theorem parseClaudeMessage_indep {obj : ClaudeObj} {dn : String} {mt : Int}
    {opts : ScanOptions} (h : tsIndependent obj.timestamp = true) (t1 t2 : Int) :
    parseClaudeMessage obj dn mt opts t1 = parseClaudeMessage obj dn mt opts t2 := by
  have hts := parseTimestamp_indep (tsIndependent_parseable h) t1 t2
  have hds := deriveSessionId_indep h dn t1 t2
  simp only [parseClaudeMessage, hts, hds]

theorem parseOpenCodeMessage_indep {obj : OCMsg} {sessionId : String}
    {info : Option OCSessionInfo} {dn : String} {mt : Int} {opts : ScanOptions}
    {parts : List OCPart} (h : parseableTSV (ocChainVal obj info) = true) (t1 t2 : Int) :
    parseOpenCodeMessage obj sessionId info dn mt opts t1 parts =
      parseOpenCodeMessage obj sessionId info dn mt opts t2 parts := by
  have hbase := parseTimestamp_indep h t1 t2
  simp only [parseOpenCodeMessage, hbase]

theorem scanClaude_indep (files : List CFile) (opts : ScanOptions)
    (h : ∀ f ∈ files, ∀ r ∈ f.records, tsIndependent r.timestamp = true) (t1 t2 : Int) :
    scanClaudeCodePure files opts t1 = scanClaudeCodePure files opts t2 := by
  unfold scanClaudeCodePure
  congr 1
  apply List.map_congr_left
  intro f hf
  apply List.filterMap_congr
  intro r hr
  rw [parseClaudeMessage_indep (h f hf r hr) t1 t2]

theorem scanOpen_indep (units : List OCUnit) (opts : ScanOptions)
    (h : ∀ u ∈ units, parseableTSV (ocChainVal u.obj u.info) = true) (t1 t2 : Int) :
    scanOpenCodePure units opts t1 = scanOpenCodePure units opts t2 := by
  unfold scanOpenCodePure
  congr 1
  apply List.map_congr_left
  intro u hu
  rw [parseOpenCodeMessage_indep (h u hu) t1 t2]

/-- C8 amended: an index build is a deterministic function of the file tree, the
options, and the scan-time clock; in particular two builds at different clock
instants agree — identical sessions, message ordering and sizes — whenever every
Source-A record carries a truthy parsable timestamp and every Source-B message
resolves a parsable creation time, because only the clock fallbacks of
`parseTimestamp` and `deriveSessionId` depend on the clock. -/
theorem buildIndex_deterministic_of_parsable (tree : ScanTree) (options : ScanOptions)
    (t1 t2 : Int)
    (hc : ∀ f ∈ tree.claudeFiles, ∀ r ∈ f.records, tsIndependent r.timestamp = true)
    (ho : ∀ u ∈ tree.opencodeUnits, parseableTSV (ocChainVal u.obj u.info) = true) :
    indexPure tree options t1 = indexPure tree options t2 := by
  unfold indexPure scanAll
  rw [scanClaude_indep _ _ hc t1 t2, scanOpen_indep _ _ ho t1 t2]

/-- C8 amended witness: two builds of a tree whose records all carry parsable
timestamps, at clocks 3 and 9999, agree. -/
theorem buildIndex_deterministic_of_parsable_witness :
    indexPure treeT opts0 3 = indexPure treeT opts0 9999 :=
  buildIndex_deterministic_of_parsable treeT opts0 3 9999 (by decide) (by decide)

/-- C9 counterexample: on the one-character string U+1D11E (a supplementary
plane character), chars mode returns 2 — the UTF-16 code-unit count that JS
`String.length` reports — while the string has exactly 1 code point. -/
theorem measureText_chars_not_codepoints :
    measureText (String.mk [Char.ofNat 0x1D11E]) .chars ≠
      (String.mk [Char.ofNat 0x1D11E]).length := by
  decide

theorem utf8Len_go_eq : ∀ l : List Char, (l.map Char.utf8Size).sum = String.utf8ByteSize.go l
  | [] => rfl
  | c :: cs => by
      simp only [List.map_cons, List.sum_cons, String.utf8ByteSize.go]
      rw [utf8Len_go_eq cs]
      omega

theorem sum_utf16_of_bmp : ∀ l : List Char, (∀ c ∈ l, c.val < 0x10000) →
    (l.map utf16Size).sum = l.length
  | [], _ => rfl
  | c :: cs, h => by
      simp only [List.map_cons, List.sum_cons, List.length_cons, utf16Size]
      rw [if_pos (h c (List.mem_cons_self c cs)),
        sum_utf16_of_bmp cs (fun c hc => h c (List.mem_cons_of_mem _ hc))]
      omega

/-- C9 amended: `measureText` computes — in bytes mode the UTF-8 encoded byte
length of the string; in chars mode the UTF-16 code-unit count, which equals the
code-point count exactly when every character lies in the basic multilingual
plane; and in tokens mode the ceiling of that same UTF-16 length divided by
4. -/
theorem measureText_modes_spec (s : String) :
    measureText s .bytes = s.utf8ByteSize ∧
    ((∀ c ∈ s.data, c.val < 0x10000) →
      measureText s .chars = s.length ∧
      measureText s .tokens = (s.length + 3) / 4) := by
  obtain ⟨data⟩ := s
  constructor
  · show measureText (String.mk data) .bytes = String.utf8ByteSize.go data
    unfold measureText
    split
    · next hempty =>
        have : data = [] := by
          have := congrArg String.data hempty
          simpa using this
        subst this
        rfl
    · exact utf8Len_go_eq data
  · intro hbmp
    have hlen : jsLength (String.mk data) = (String.mk data).length := sum_utf16_of_bmp data hbmp
    constructor
    · unfold measureText
      split
      · next hempty =>
          have : data = [] := by
            have := congrArg String.data hempty
            simpa using this
          subst this
          rfl
      · exact hlen
    · unfold measureText
      split
      · next hempty =>
          have : data = [] := by
            have := congrArg String.data hempty
            simpa using this
          subst this
          rfl
      · show (jsLength (String.mk data) + 3) / 4 = ((String.mk data).length + 3) / 4
        rw [hlen]

/-- C9 amended witness: the three modes evaluated on a basic-plane string. -/
theorem measureText_modes_spec_witness :
    measureText "hello" .bytes = "hello".utf8ByteSize ∧
    measureText "hello" .chars = "hello".length ∧
    measureText "hello" .tokens = ("hello".length + 3) / 4 :=
  ⟨(measureText_modes_spec "hello").1,
   ((measureText_modes_spec "hello").2 (by decide)).1,
   ((measureText_modes_spec "hello").2 (by decide)).2⟩

/-- C10: an options tuple whose `since` is the epoch instant 0 produces the same
cache key as the tuple with `since` omitted (`getTime()` is 0 and falsy, so both
collapse to the `no-since` sentinel); consequently a build with `since` = epoch
0 issued within the TTL after an unfiltered build that scanned is served that
unfiltered cached Index without scanning. -/
theorem cacheKey_epoch_zero_spec :
    (∀ (a b : String) (m : SizeMode),
      generateCacheKey { claudeRoot := a, opencodeRoot := b, sizeMode := m, since := some 0 } =
        generateCacheKey { claudeRoot := a, opencodeRoot := b, sizeMode := m, since := none }) ∧
    (∀ (opts : ScanOptions) (tree1 tree2 : ScanTree) (cache0 : Cache) (t0 t0' t1 t1' : Int)
        (i1 : IndexT) (c1 : Cache),
      opts.since = none →
      buildIndexM opts tree1 cache0 t0 t0' = (i1, c1, true) →
      t1 - t0' < CACHE_TTL →
      buildIndexM { opts with since := some 0 } tree2 c1 t1 t1' = (i1, c1, false)) := by
  constructor
  · intro a b m
    rfl
  · intro opts tree1 tree2 cache0 t0 t0' t1 t1' i1 c1 hnone hfirst hwithin
    have hkey : generateCacheKey { opts with since := some 0 } = generateCacheKey opts := by
      simp [generateCacheKey, hnone]
    have hc1 := (buildIndexM_scanned hfirst).2
    have hget :
        cacheGet c1 (generateCacheKey { opts with since := some 0 }) =
          some ⟨generateIndexHash (scanAll tree1 opts t0), i1, t0'⟩ := by
      rw [hkey, hc1]
      exact cacheGet_cacheSet_same _ _ _
    exact buildIndexM_hit hget hwithin

/-- C10 witness: the key collapse and the cache crossover evaluated on concrete
options and trees. -/
theorem cacheKey_epoch_zero_spec_witness :
    generateCacheKey
        { claudeRoot := "/c", opencodeRoot := "/o", sizeMode := .chars, since := some 0 } =
      generateCacheKey
        { claudeRoot := "/c", opencodeRoot := "/o", sizeMode := .chars, since := none } ∧
    buildIndexM { opts0 with since := some 0 } treeT
        ((buildIndexM opts0 treeC8 [] 0 1).2.1) 2 3 =
      ((buildIndexM opts0 treeC8 [] 0 1).1, (buildIndexM opts0 treeC8 [] 0 1).2.1, false) :=
  ⟨(cacheKey_epoch_zero_spec.1 "/c" "/o" .chars),
   cacheKey_epoch_zero_spec.2 opts0 treeC8 treeT [] 0 1 2 3
      (buildIndexM opts0 treeC8 [] 0 1).1 (buildIndexM opts0 treeC8 [] 0 1).2.1 rfl rfl
      (by decide)⟩
